import Mathlib

/-!
# Rating chaincode (`contract/rating/rating.go`)

A shallow embedding of the rating smart contract and proofs about its five operations,
`InitLedger`, `ReadLedger`, `LedgerExists`, `RegisterRate` and `GetAllRatings`.

* Go strings and byte slices are byte sequences (`Bytes`), not necessarily valid UTF-8.
* Go's `int` is modelled by `Int`; `isInt64` says that a value fits the 64-bit type.
* The pieces of the Go libraries the contract calls are modelled explicitly:
  `strings.Join`, `strconv` (decimal integers), `unicode/utf8` (`DecodeRune`,
  `EncodeRune`), `encoding/json` (`Marshal` and `Unmarshal` of the struct `Rating`) and
  `ptypes.Timestamp`.
* The ledger platform behind `ctx.GetStub()` is modelled from the specification as a store
  with a current value and an append-only history per key; every operation takes the
  ledger and returns its result together with the ledger it leaves, and the platform's
  failures are part of the transaction context.
* Logging and the release of the history iterator (`defer resultsIterator.Close()`) have
  no effect on results or ledger and are left out.
-/

namespace Chaincode

/-- A Go `string` or `[]byte`: a finite sequence of bytes, not necessarily valid UTF-8. -/
abbrev Bytes := List UInt8

/-- The byte with the given value (taken modulo 256). -/
def byte (n : Nat) : UInt8 := UInt8.ofNat n

/-- The bytes of a Go string literal: the UTF-8 encoding of the text. -/
def str (s : String) : Bytes := s.data.flatMap String.utf8EncodeChar

/-! ## `unicode/utf8` -/

namespace utf8

/-- The "error" rune U+FFFD. -/
def RuneError : Nat := 0xFFFD

/-- Entry `first[p0]` of the lead-byte table: `0xF0` for ASCII, `0xF1` for an
invalid lead byte, otherwise the sequence length in the low three bits and the
index of the accept range for the second byte in the high four bits. -/
def first (p0 : Nat) : Nat :=
  if p0 < 0x80 then 0xF0
  else if p0 < 0xC2 then 0xF1
  else if p0 < 0xE0 then 0x02
  else if p0 = 0xE0 then 0x13
  else if p0 < 0xED then 0x03
  else if p0 = 0xED then 0x23
  else if p0 < 0xF0 then 0x03
  else if p0 = 0xF0 then 0x34
  else if p0 < 0xF4 then 0x04
  else if p0 = 0xF4 then 0x44
  else 0xF1

/-- The table `acceptRanges`: bounds `(lo, hi)` for the second byte of a sequence. -/
def acceptRanges (i : Nat) : Nat × Nat :=
  match i with
  | 0 => (0x80, 0xBF)
  | 1 => (0xA0, 0xBF)
  | 2 => (0x80, 0x9F)
  | 3 => (0x90, 0xBF)
  | 4 => (0x80, 0x8F)
  | _ => (0, 0)

/-- Whether `b` is a continuation byte, `locb ≤ b ≤ hicb`. -/
def isCont (b : UInt8) : Bool := 0x80 ≤ b.toNat && b.toNat ≤ 0xBF

/-- The function `utf8.DecodeRune`: the first rune of `p` and its width in bytes;
`(RuneError, 0)` for empty input and `(RuneError, 1)` for an invalid encoding.
The masks and shifts of the source are written as `%` and `*` on naturals. -/
def DecodeRune (p : Bytes) : Nat × Nat :=
  match p with
  | [] => (RuneError, 0)
  | p0 :: rest =>
    let x := first p0.toNat
    if x ≥ 0xF0 then
      (if x = 0xF0 then p0.toNat else RuneError, 1)
    else
      let sz := x % 8
      let accept := acceptRanges (x / 16)
      if p.length < sz then (RuneError, 1)
      else
        match rest with
        | [] => (RuneError, 1)
        | b1 :: rest1 =>
          if b1.toNat < accept.1 || accept.2 < b1.toNat then (RuneError, 1)
          else if sz ≤ 2 then ((p0.toNat % 32) * 64 + b1.toNat % 64, 2)
          else
            match rest1 with
            | [] => (RuneError, 1)
            | b2 :: rest2 =>
              if !isCont b2 then (RuneError, 1)
              else if sz ≤ 3 then
                ((p0.toNat % 16) * 4096 + (b1.toNat % 64) * 64 + b2.toNat % 64, 3)
              else
                match rest2 with
                | [] => (RuneError, 1)
                | b3 :: _ =>
                  if !isCont b3 then (RuneError, 1)
                  else
                    ((p0.toNat % 8) * 262144 + (b1.toNat % 64) * 4096
                      + (b2.toNat % 64) * 64 + b3.toNat % 64, 4)

/-- The three-byte encoding used by `EncodeRune` for runes up to U+FFFF. -/
def encode3 (r : Nat) : Bytes :=
  [byte (0xE0 + r / 4096), byte (0x80 + (r / 64) % 64), byte (0x80 + r % 64)]

/-- The function `utf8.EncodeRune` (`utf8.AppendRune`): the UTF-8 encoding of rune
`r`; surrogates and values above U+10FFFF are encoded as `RuneError`. -/
def EncodeRune (r : Nat) : Bytes :=
  if r ≤ 0x7F then [byte r]
  else if r ≤ 0x7FF then [byte (0xC0 + r / 64), byte (0x80 + r % 64)]
  else if r > 0x10FFFF || (0xD800 ≤ r && r ≤ 0xDFFF) then encode3 RuneError
  else if r ≤ 0xFFFF then encode3 r
  else
    [byte (0xF0 + r / 262144), byte (0x80 + (r / 4096) % 64),
     byte (0x80 + (r / 64) % 64), byte (0x80 + r % 64)]

/-- The function `utf8.Valid`: every rune of `p` decodes without error.  `fuel`
bounds the number of runes; `p.length` is always enough. -/
def validLoop : Nat → Bytes → Bool
  | 0, p => p.isEmpty
  | _ + 1, [] => true
  | fuel + 1, p0 :: rest =>
    let d := DecodeRune (p0 :: rest)
    if d.1 = RuneError ∧ d.2 = 1 then false
    else validLoop fuel ((p0 :: rest).drop d.2)

/-- Whether `p` is valid UTF-8 (`utf8.Valid`). -/
def Valid (p : Bytes) : Bool := validLoop p.length p

end utf8

/-! ## `strings` and `strconv` -/

/-- The function `strings.Join`: the elements of `elems` with `sep` between neighbours. -/
def stringsJoin (elems : List Bytes) (sep : Bytes) : Bytes :=
  match elems with
  | [] => []
  | e :: es => e ++ (es.map (fun x => sep ++ x)).flatten

/-- Decimal digits of `n`, most significant first, prepended to `acc`
(the digit loop of `strconv.FormatInt`).  `fuel` bounds the number of digits. -/
def formatDigits : Nat → Nat → Bytes → Bytes
  | 0, _, acc => acc
  | fuel + 1, n, acc =>
    let acc1 := byte (0x30 + n % 10) :: acc
    if n / 10 = 0 then acc1 else formatDigits fuel (n / 10) acc1

/-- The function `strconv.AppendInt(_, i, 10)`: base-10 text of `i`, with a leading `-`
when negative. -/
def formatInt (i : Int) : Bytes :=
  if i < 0 then byte 0x2D :: formatDigits (i.natAbs + 1) i.natAbs []
  else formatDigits (i.natAbs + 1) i.natAbs []

/-- Whether `c` is an ASCII decimal digit. -/
def isDigit (c : UInt8) : Bool := 0x30 ≤ c.toNat && c.toNat ≤ 0x39

/-- Value of a run of decimal digits, continuing from `acc`; `none` on a non-digit. -/
def parseDigits : Nat → Bytes → Option Nat
  | acc, [] => some acc
  | acc, c :: rest =>
    if isDigit c then parseDigits (acc * 10 + (c.toNat - 0x30)) rest else none

/-- Least value of Go's `int` (64 bits on the platforms the chaincode runs on). -/
def minInt64 : Int := -9223372036854775808

/-- Greatest value of Go's 64-bit `int`. -/
def maxInt64 : Int := 9223372036854775807

/-- Whether `i` is representable as a Go `int`. -/
def isInt64 (i : Int) : Prop := minInt64 ≤ i ∧ i ≤ maxInt64

instance (i : Int) : Decidable (isInt64 i) := by unfold isInt64; infer_instance

/-- The function `strconv.ParseInt(s, 10, 64)`: an optional sign, then one or more decimal
digits, with the value in the 64-bit range; `none` is the error result. -/
def parseInt64 (s : Bytes) : Option Int :=
  let body (neg : Bool) (ds : Bytes) : Option Int :=
    match ds with
    | [] => none
    | _ :: _ =>
      match parseDigits 0 ds with
      | none => none
      | some n =>
        let v : Int := if neg then -(n : Int) else (n : Int)
        if minInt64 ≤ v ∧ v ≤ maxInt64 then some v else none
  match s with
  | [] => none
  | c :: rest =>
    if c.toNat = 0x2D then body true rest
    else if c.toNat = 0x2B then body false rest
    else body false (c :: rest)

/-! ## The entity -/

/-- The struct `Rating`: the value stored under one ledger key. -/
structure Rating where
  LedgerId : Bytes
  Rate : Int
  RatedBy : Bytes
  OwnerId : Bytes
  deriving DecidableEq, Repr

/-- The zero value of `Rating` (`var rating Rating`). -/
def Rating.zero : Rating := { LedgerId := [], Rate := 0, RatedBy := [], OwnerId := [] }

/-! ## `encoding/json`: encoding -/

namespace json

/-- Digit `n` of the table `hex = "0123456789abcdef"`. -/
def hex (n : Nat) : UInt8 := if n < 10 then byte (0x30 + n) else byte (0x57 + n)

/-- The table `htmlSafeSet`: ASCII bytes written to a JSON string as they are; the others
are the control bytes, the double quote, the backslash, and `<`, `>`, `&`. -/
def htmlSafe (b : Nat) : Bool :=
  0x20 ≤ b && b < 0x80 && b != 0x22 && b != 0x5C && b != 0x26 && b != 0x3C && b != 0x3E

/-- Escape sequence written for an ASCII byte outside `htmlSafeSet`: a backslash before
`\` and `"`, the letters `n`, `r`, `t` for line feed, carriage return and tab, and
`\u00XX` for every other byte (Go releases from 1.22 on write `\b` and `\f` for 0x08 and
0x0C instead, which `Unmarshal` reads as the same bytes). -/
def escapeByte (b : Nat) : Bytes :=
  if b = 0x5C ∨ b = 0x22 then [byte 0x5C, byte b]
  else if b = 0x0A then [byte 0x5C, byte 0x6E]
  else if b = 0x0D then [byte 0x5C, byte 0x72]
  else if b = 0x09 then [byte 0x5C, byte 0x74]
  else [byte 0x5C, byte 0x75, byte 0x30, byte 0x30, hex (b / 16), hex (b % 16)]

/-- The loop of the string encoder (`encodeState.string` with HTML escaping, as
`json.Marshal` uses it), without the surrounding quotes.  Safe ASCII bytes and valid
multi-byte runes are copied; other ASCII bytes are escaped; U+2028 and U+2029 are
written as `\u2028`, `\u2029`; every byte that is not part of a valid UTF-8 sequence is
replaced by the text `\ufffd`.  `fuel` bounds the iterations; `s.length` is enough. -/
def stringLoop : Nat → Bytes → Bytes
  | 0, _ => []
  | _ + 1, [] => []
  | fuel + 1, b :: rest =>
    if b.toNat < 0x80 then
      if htmlSafe b.toNat then b :: stringLoop fuel rest
      else escapeByte b.toNat ++ stringLoop fuel rest
    else
      let d := utf8.DecodeRune (b :: rest)
      if d.1 = utf8.RuneError ∧ d.2 = 1 then
        str "\\ufffd" ++ stringLoop fuel rest
      else if d.1 = 0x2028 ∨ d.1 = 0x2029 then
        [byte 0x5C, byte 0x75, byte 0x32, byte 0x30, byte 0x32, hex (d.1 % 16)]
          ++ stringLoop fuel ((b :: rest).drop d.2)
      else
        (b :: rest).take d.2 ++ stringLoop fuel ((b :: rest).drop d.2)

/-- JSON text of a Go string: the encoded body between double quotes. -/
def encodeString (s : Bytes) : Bytes :=
  byte 0x22 :: (stringLoop s.length s ++ [byte 0x22])

/-- The call `json.Marshal(rating)` for a `Rating`: the object with the members
`ledgerId`, `rate`, `ratedBy`, `ownerId`, in the order of the struct's fields.  Encoding
a struct of strings and an int cannot fail, which is why the source drops the error. -/
def Marshal (r : Rating) : Bytes :=
  byte 0x7B :: (str "\"ledgerId\":" ++ encodeString r.LedgerId
    ++ str ",\"rate\":" ++ formatInt r.Rate
    ++ str ",\"ratedBy\":" ++ encodeString r.RatedBy
    ++ str ",\"ownerId\":" ++ encodeString r.OwnerId
    ++ [byte 0x7D])

/-! ## `encoding/json`: decoding -/

/-- JSON white space: space, tab, carriage return, line feed. -/
def isSpace (c : UInt8) : Bool :=
  c.toNat = 0x20 || c.toNat = 0x09 || c.toNat = 0x0D || c.toNat = 0x0A

/-- Drop leading white space. -/
def skipSpace : Bytes → Bytes
  | [] => []
  | c :: rest => if isSpace c then skipSpace rest else c :: rest

/-- Value of a hexadecimal digit, `none` for any other byte. -/
def hexVal (c : UInt8) : Option Nat :=
  if 0x30 ≤ c.toNat ∧ c.toNat ≤ 0x39 then some (c.toNat - 0x30)
  else if 0x61 ≤ c.toNat ∧ c.toNat ≤ 0x66 then some (c.toNat - 0x61 + 10)
  else if 0x41 ≤ c.toNat ∧ c.toNat ≤ 0x46 then some (c.toNat - 0x41 + 10)
  else none

/-- The function `getu4`: the value of a leading `\uXXXX` escape, `none` when the input
does not start with one. -/
def getu4 : Bytes → Option Nat
  | c0 :: c1 :: h0 :: h1 :: h2 :: h3 :: _ =>
    if c0.toNat = 0x5C ∧ c1.toNat = 0x75 then
      match hexVal h0, hexVal h1, hexVal h2, hexVal h3 with
      | some a, some b, some c, some d => some (a * 4096 + b * 256 + c * 16 + d)
      | _, _, _, _ => none
    else none
  | _ => none

/-- Whether `r` is a UTF-16 surrogate (`utf16.IsSurrogate`). -/
def isSurrogate (r : Nat) : Bool := 0xD800 ≤ r && r < 0xE000

/-- The function `utf16.DecodeRune`: the rune of a surrogate pair, U+FFFD when the two
values are not a high surrogate followed by a low one. -/
def utf16DecodeRune (r1 r2 : Nat) : Nat :=
  if 0xD800 ≤ r1 ∧ r1 < 0xDC00 ∧ 0xDC00 ≤ r2 ∧ r2 < 0xE000 then
    (r1 - 0xD800) * 1024 + (r2 - 0xDC00) + 0x10000
  else 0xFFFD

/-- Byte denoted by a one-letter escape after a backslash, `none` when there is none. -/
def simpleEscape (c : Nat) : Option UInt8 :=
  if c = 0x22 ∨ c = 0x5C ∨ c = 0x2F then some (byte c)
  else if c = 0x62 then some (byte 0x08)
  else if c = 0x66 then some (byte 0x0C)
  else if c = 0x6E then some (byte 0x0A)
  else if c = 0x72 then some (byte 0x0D)
  else if c = 0x74 then some (byte 0x09)
  else none

/-- Reading a JSON string whose opening quote has been consumed: the scanner's string
states together with the copying loop of `unquoteBytes` (its first loop, which returns
the token unchanged when nothing in it needs work, yields the same bytes).  Returns the
decoded Go string and the input after the closing quote; `none` for a control byte, a bad
escape or a missing closing quote.  Escapes are resolved, a `\u` surrogate pair becomes one
rune, a lone surrogate becomes U+FFFD, and every byte that is not part of a valid UTF-8
sequence becomes U+FFFD.  `fuel` bounds the iterations; one more than the input length is
enough. -/
def unquoteLoop : Nat → Bytes → Option (Bytes × Bytes)
  | 0, _ => none
  | _ + 1, [] => none
  | fuel + 1, c :: rest =>
    if c.toNat = 0x22 then some ([], rest)
    else if c.toNat = 0x5C then
      match rest with
      | [] => none
      | e :: rest1 =>
        if e.toNat = 0x75 then
          match getu4 (c :: rest) with
          | none => none
          | some rr =>
            let rest2 := rest1.drop 4
            if isSurrogate rr then
              match getu4 rest2 with
              | some rr1 =>
                if utf16DecodeRune rr rr1 ≠ 0xFFFD then
                  (unquoteLoop fuel (rest2.drop 6)).map
                    (fun p => (utf8.EncodeRune (utf16DecodeRune rr rr1) ++ p.1, p.2))
                else
                  (unquoteLoop fuel rest2).map
                    (fun p => (utf8.EncodeRune 0xFFFD ++ p.1, p.2))
              | none =>
                (unquoteLoop fuel rest2).map
                  (fun p => (utf8.EncodeRune 0xFFFD ++ p.1, p.2))
            else
              (unquoteLoop fuel rest2).map (fun p => (utf8.EncodeRune rr ++ p.1, p.2))
        else
          match simpleEscape e.toNat with
          | none => none
          | some x => (unquoteLoop fuel rest1).map (fun p => (x :: p.1, p.2))
    else if c.toNat < 0x20 then none
    else if c.toNat < 0x80 then (unquoteLoop fuel rest).map (fun p => (c :: p.1, p.2))
    else
      let d := utf8.DecodeRune (c :: rest)
      (unquoteLoop fuel ((c :: rest).drop d.2)).map
        (fun p => (utf8.EncodeRune d.1 ++ p.1, p.2))

/-- A JSON string token at the head of `s` (opening quote included): the decoded string
and the rest of the input. -/
def readString (s : Bytes) : Option (Bytes × Bytes) :=
  match s with
  | [] => none
  | c :: rest => if c.toNat = 0x22 then unquoteLoop (rest.length + 1) rest else none

/-- Split off the longest prefix of decimal digits. -/
def spanDigits : Bytes → Bytes × Bytes
  | [] => ([], [])
  | c :: rest =>
    if isDigit c then ((spanDigits rest).1.cons c, (spanDigits rest).2) else ([], c :: rest)

/-- A JSON number token at the head of `s`: the literal text and the rest of the input;
`none` when `s` does not start with a number of the JSON grammar
`-? (0 | [1-9][0-9]*) (. [0-9]+)? ([eE] [+-]? [0-9]+)?`. -/
def readNumber (s : Bytes) : Option (Bytes × Bytes) :=
  let sign : Bytes × Bytes :=
    match s with
    | c :: rest => if c.toNat = 0x2D then ([c], rest) else ([], s)
    | [] => ([], [])
  let intPart : Option (Bytes × Bytes) :=
    match sign.2 with
    | [] => none
    | c :: rest =>
      if c.toNat = 0x30 then some ([c], rest)
      else if isDigit c then some ((spanDigits (c :: rest)).1, (spanDigits (c :: rest)).2)
      else none
  match intPart with
  | none => none
  | some (ip, s1) =>
    let frac : Option (Bytes × Bytes) :=
      match s1 with
      | c :: rest =>
        if c.toNat = 0x2E then
          (if (spanDigits rest).1.isEmpty then none
           else some (c :: (spanDigits rest).1, (spanDigits rest).2))
        else some ([], s1)
      | [] => some ([], [])
    match frac with
    | none => none
    | some (fp, s2) =>
      let exp : Option (Bytes × Bytes) :=
        match s2 with
        | c :: rest =>
          if c.toNat = 0x65 ∨ c.toNat = 0x45 then
            let sg : Bytes × Bytes :=
              match rest with
              | d :: rest1 => if d.toNat = 0x2B ∨ d.toNat = 0x2D then ([d], rest1) else ([], rest)
              | [] => ([], [])
            (if (spanDigits sg.2).1.isEmpty then none
             else some (c :: (sg.1 ++ (spanDigits sg.2).1), (spanDigits sg.2).2))
          else some ([], s2)
        | [] => some ([], [])
      match exp with
      | none => none
      | some (ep, s3) => some (sign.1 ++ ip ++ fp ++ ep, s3)

/-- Strip the literal `lit` from the head of `s`; `none` when `s` does not start with it. -/
def readLiteral (lit : Bytes) (s : Bytes) : Option Bytes :=
  if lit.isPrefixOf s then some (s.drop lit.length) else none

mutual

/-- Skip one JSON value at the head of `s` (no leading white space), checking its syntax;
the rest of the input, or `none` on a syntax error.  `fuel` bounds the recursion; the
input length plus one is enough. -/
def skipValue : Nat → Bytes → Option Bytes
  | 0, _ => none
  | _ + 1, [] => none
  | fuel + 1, c :: rest =>
    if c.toNat = 0x22 then (readString (c :: rest)).map (fun p => p.2)
    else if c.toNat = 0x7B then
      match skipSpace rest with
      | [] => none
      | d :: rest1 => if d.toNat = 0x7D then some rest1 else skipMembers fuel (d :: rest1)
    else if c.toNat = 0x5B then
      match skipSpace rest with
      | [] => none
      | d :: rest1 => if d.toNat = 0x5D then some rest1 else skipElements fuel (d :: rest1)
    else if c.toNat = 0x74 then readLiteral (str "true") (c :: rest)
    else if c.toNat = 0x66 then readLiteral (str "false") (c :: rest)
    else if c.toNat = 0x6E then readLiteral (str "null") (c :: rest)
    else (readNumber (c :: rest)).map (fun p => p.2)

/-- Skip the members of an object up to and including its closing brace; `s` starts at
the first member's key. -/
def skipMembers : Nat → Bytes → Option Bytes
  | 0, _ => none
  | fuel + 1, s =>
    match readString s with
    | none => none
    | some (_, s1) =>
      match skipSpace s1 with
      | [] => none
      | c :: s2 =>
        if c.toNat = 0x3A then
          match skipValue fuel (skipSpace s2) with
          | none => none
          | some s3 =>
            match skipSpace s3 with
            | [] => none
            | d :: s4 =>
              if d.toNat = 0x2C then skipMembers fuel (skipSpace s4)
              else if d.toNat = 0x7D then some s4
              else none
        else none

/-- Skip the elements of an array up to and including its closing bracket; `s` starts at
the first element. -/
def skipElements : Nat → Bytes → Option Bytes
  | 0, _ => none
  | fuel + 1, s =>
    match skipValue fuel s with
    | none => none
    | some s1 =>
      match skipSpace s1 with
      | [] => none
      | d :: s2 =>
        if d.toNat = 0x2C then skipElements fuel (skipSpace s2)
        else if d.toNat = 0x5D then some s2
        else none

end

/-- The fields of `Rating` by JSON name. -/
inductive Field where
  | ledgerId | rate | ratedBy | ownerId
  deriving DecidableEq, Repr

/-- ASCII upper-case form of a byte. -/
def upper (c : UInt8) : UInt8 :=
  if 0x61 ≤ c.toNat ∧ c.toNat ≤ 0x7A then byte (c.toNat - 0x20) else c

/-- Whether an object key names the field called `name`: an exact match or, failing that,
a match up to ASCII case (the names of `Rating` contain no letter with a non-ASCII case
variant). -/
def equalFold (name key : Bytes) : Bool := name.map upper = key.map upper

/-- The struct field an object key is decoded into, `none` for a key without a field. -/
def findField (key : Bytes) : Option Field :=
  if equalFold (str "ledgerId") key then some Field.ledgerId
  else if equalFold (str "rate") key then some Field.rate
  else if equalFold (str "ratedBy") key then some Field.ratedBy
  else if equalFold (str "ownerId") key then some Field.ownerId
  else none

/-- Decode the value at the head of `s` into a string field: a string sets the field,
`null` leaves it, anything else is an error. -/
def decodeStringField (set : Bytes → Rating) (keep : Rating) (s : Bytes) :
    Option (Rating × Bytes) :=
  match s with
  | [] => none
  | c :: _ =>
    if c.toNat = 0x22 then (readString s).map (fun p => (set p.1, p.2))
    else if c.toNat = 0x6E then (readLiteral (str "null") s).map (fun rest => (keep, rest))
    else none

/-- Decode the value at the head of `s` into the int field `Rate`: a number literal that
`strconv.ParseInt` accepts sets the field, `null` leaves it, anything else is an error. -/
def decodeIntField (r : Rating) (s : Bytes) : Option (Rating × Bytes) :=
  match s with
  | [] => none
  | c :: _ =>
    if c.toNat = 0x6E then (readLiteral (str "null") s).map (fun rest => (r, rest))
    else
      match readNumber s with
      | none => none
      | some (lit, rest) =>
        match parseInt64 lit with
        | none => none
        | some n => some ({ r with Rate := n }, rest)

/-- Decode the members of an object into `r`, starting at the first key and ending after
the closing brace.  A key naming a field stores its value there, later members
overriding earlier ones; the value of any other key is skipped.  `fuel` bounds the
recursion; the input length plus one is enough. -/
def decodeMembers : Nat → Rating → Bytes → Option (Rating × Bytes)
  | 0, _, _ => none
  | fuel + 1, r, s =>
    match readString s with
    | none => none
    | some (key, s1) =>
      match skipSpace s1 with
      | [] => none
      | c :: s2 =>
        if c.toNat = 0x3A then
          let v := skipSpace s2
          let res : Option (Rating × Bytes) :=
            match findField key with
            | some Field.ledgerId => decodeStringField (fun x => { r with LedgerId := x }) r v
            | some Field.rate => decodeIntField r v
            | some Field.ratedBy => decodeStringField (fun x => { r with RatedBy := x }) r v
            | some Field.ownerId => decodeStringField (fun x => { r with OwnerId := x }) r v
            | none => (skipValue (v.length + 1) v).map (fun rest => (r, rest))
          match res with
          | none => none
          | some (r1, s3) =>
            match skipSpace s3 with
            | [] => none
            | d :: s4 =>
              if d.toNat = 0x2C then decodeMembers fuel r1 (skipSpace s4)
              else if d.toNat = 0x7D then some (r1, s4)
              else none
        else none

/-- The call `json.Unmarshal(data, &rating)` for a `Rating`: `some` of the updated struct
when `data` is one JSON value that decodes into it, `none` for the error result (a
syntax error or a value of the wrong type).  An object fills the fields its keys name; the
literal `null` leaves the struct as it is; any other value is an error. -/
def Unmarshal (data : Bytes) (rating : Rating) : Option Rating :=
  match skipSpace data with
  | [] => none
  | c :: rest =>
    if c.toNat = 0x7B then
      match skipSpace rest with
      | [] => none
      | d :: rest1 =>
        if d.toNat = 0x7D then (if skipSpace rest1 = [] then some rating else none)
        else
          match decodeMembers (data.length + 1) rating (d :: rest1) with
          | none => none
          | some (r, rest2) => if skipSpace rest2 = [] then some r else none
    else if c.toNat = 0x6E then
      match readLiteral (str "null") (c :: rest) with
      | none => none
      | some rest1 => if skipSpace rest1 = [] then some rating else none
    else none

end json

/-! ## Errors -/

deriving instance DecidableEq for Except

/-- The `error` values the contract returns, by origin.  An error of the ledger platform
is its message, a `String`. -/
inductive Error where
  /-- An error returned by a call on the ledger platform, passed on as it is. -/
  | platform (msg : String)
  /-- The error `fmt.Errorf("failed to read from world state: %v", err)`. -/
  | readWorldState (cause : String)
  /-- The error `fmt.Errorf("the ledger %s already exists", ledgerId)`. -/
  | alreadyExists (ledgerId : Bytes)
  /-- The error `fmt.Errorf("the rating %s does not exist", ledgerId)`. -/
  | doesNotExist (ledgerId : Bytes)
  /-- An error returned by `json.Unmarshal`. -/
  | decode
  /-- An error returned by `ptypes.Timestamp`. -/
  | timestamp
  deriving DecidableEq, Repr

/-! ## The ledger platform -/

/-- A protobuf `Timestamp` message: seconds and nanoseconds since the Unix epoch. -/
structure Timestamp where
  Seconds : Int
  Nanos : Int
  deriving DecidableEq, Repr

/-- A Go `time.Time` in UTC, as seconds and nanoseconds since the Unix epoch. -/
structure Time where
  sec : Int
  nsec : Int
  deriving DecidableEq, Repr

/-- The function `ptypes.Timestamp`: the time a protobuf timestamp denotes; an error for a
nil timestamp, for seconds before 0001-01-01 or from 10000-01-01 on, and for nanoseconds
outside `[0, 1e9)`. -/
def ptypesTimestamp (ts : Option Timestamp) : Except Error Time :=
  match ts with
  | none => .error Error.timestamp
  | some t =>
    if t.Seconds < -62135596800 then .error Error.timestamp
    else if t.Seconds ≥ 253402300800 then .error Error.timestamp
    else if t.Nanos < 0 ∨ t.Nanos ≥ 1000000000 then .error Error.timestamp
    else .ok { sec := t.Seconds, nsec := t.Nanos }

/-- Modelled from the spec: one entry of the platform's per-key history feed
(`queryresult.KeyModification`, not in src): the value written, the identifier and commit
time the platform assigned to the mutation, and whether it was a deletion. -/
structure KeyModification where
  TxId : Bytes
  Value : Bytes
  Timestamp : Option Timestamp
  IsDelete : Bool
  deriving DecidableEq, Repr

/-- Modelled from the spec: the Ledger Platform's store (not in src), an append-only,
versioned key-value store: the current value of every key (`none` for a key that has no
value) and, per key, the feed of every mutation committed to it, oldest first. -/
structure Ledger where
  state : Bytes → Option Bytes
  history : Bytes → List KeyModification

/-- Modelled from the spec: the ledger on which nothing has been written. -/
def Ledger.empty : Ledger := { state := fun _ => none, history := fun _ => [] }

/-- Modelled from the spec: what the platform supplies to one invocation
(`contractapi.TransactionContextInterface`, not in src): the identifier and time it
assigns to the transaction, and which of its calls fail in this invocation, with the
error message (`none`: the call succeeds). -/
structure TransactionContext where
  txId : Bytes
  timestamp : Option Timestamp
  getStateErr : Bytes → Option String
  putStateErr : Bytes → Option String
  getHistoryErr : Bytes → Option String
  nextErr : Bytes → Nat → Option String

/-- Modelled from the spec: `get(key)` of the platform (`GetState`, not in src): the
current value of `key`, `none` (Go `nil`) when the key has no value, or an I/O error.
Reading leaves the ledger as it is. -/
def GetState (ctx : TransactionContext) (key : Bytes) (l : Ledger) :
    Except String (Option Bytes) × Ledger :=
  match ctx.getStateErr key with
  | some msg => (.error msg, l)
  | none => (.ok (l.state key), l)

/-- Modelled from the spec: `put(key, bytes)` of the platform (`PutState`, not in src):
writes a new current value of `key` and appends the mutation to the key's history, or
fails with an I/O error and writes nothing. -/
def PutState (ctx : TransactionContext) (key : Bytes) (value : Bytes) (l : Ledger) :
    Except String Unit × Ledger :=
  match ctx.putStateErr key with
  | some msg => (.error msg, l)
  | none =>
    (.ok (),
     { state := fun k => if k = key then some value else l.state k,
       history := fun k =>
         if k = key then
           l.history k ++
             [{ TxId := ctx.txId, Value := value, Timestamp := ctx.timestamp, IsDelete := false }]
         else l.history k })

/-- Modelled from the spec: `history(key)` of the platform (`GetHistoryForKey`, not in
src): the feed of the mutations of `key` in the platform's order, each `Next` yielding an
entry or an I/O error, or an I/O error on opening the feed. -/
def GetHistoryForKey (ctx : TransactionContext) (key : Bytes) (l : Ledger) :
    Except String (List (Except String KeyModification)) × Ledger :=
  match ctx.getHistoryErr key with
  | some msg => (.error msg, l)
  | none =>
    (.ok ((l.history key).enum.map (fun p =>
        match ctx.nextErr key p.1 with
        | some msg => .error msg
        | none => .ok p.2)),
     l)

/-! ## The contract -/

/-- The struct `HistoryQueryResult`: one snapshot of a key's history. -/
structure HistoryQueryResult where
  Record : Rating
  TxId : Bytes
  Timestamp : Time
  IsDelete : Bool
  deriving DecidableEq, Repr

/-- The method `LedgerExists`. -/
def LedgerExists (ctx : TransactionContext) (ledgerId : Bytes) (l : Ledger) :
    Except Error Bool × Ledger :=
  match GetState ctx ledgerId l with
  | (.error err, l1) => (.error (Error.readWorldState err), l1)
  | (.ok ratingJSON, l1) => (.ok (ratingJSON != none), l1)

/-- The method `InitLedger`. -/
def InitLedger (ctx : TransactionContext) (userId serviceType : Bytes) (l : Ledger) :
    Except Error Unit × Ledger :=
  let ledgerId := stringsJoin [userId, serviceType] (str ":")
  match LedgerExists ctx ledgerId l with
  | (.error err, l1) => (.error err, l1)
  | (.ok true, l1) => (.error (Error.alreadyExists ledgerId), l1)
  | (.ok false, l1) =>
    let rating : Rating :=
      { LedgerId := ledgerId, Rate := 3, RatedBy := str "init", OwnerId := userId }
    let ratingAsBytes := json.Marshal rating
    match PutState ctx ledgerId ratingAsBytes l1 with
    | (.error err, l2) => (.error (Error.platform err), l2)
    | (.ok (), l2) => (.ok (), l2)

/-- The method `ReadLedger`. -/
def ReadLedger (ctx : TransactionContext) (ledgerId : Bytes) (l : Ledger) :
    Except Error Rating × Ledger :=
  match GetState ctx ledgerId l with
  | (.error err, l1) => (.error (Error.readWorldState err), l1)
  | (.ok none, l1) => (.error (Error.doesNotExist ledgerId), l1)
  | (.ok (some ratingJSON), l1) =>
    match json.Unmarshal ratingJSON Rating.zero with
    | none => (.error Error.decode, l1)
    | some rating => (.ok rating, l1)

/-- The method `RegisterRate`. -/
def RegisterRate (ctx : TransactionContext) (ledgerId : Bytes) (rate : Int) (userId : Bytes)
    (l : Ledger) : Except Error Unit × Ledger :=
  let rating : Rating :=
    { LedgerId := ledgerId, Rate := rate, RatedBy := userId, OwnerId := [] }
  let ratingAsBytes := json.Marshal rating
  match PutState ctx ledgerId ratingAsBytes l with
  | (.error err, l1) => (.error (Error.platform err), l1)
  | (.ok (), l1) => (.ok (), l1)

/-- The loop of `GetAllRatings` over the history iterator: `feed` is what the remaining
calls of `Next` yield, `records` the results accumulated so far. -/
def historyLoop (ledgerId : Bytes) :
    List (Except String KeyModification) → List HistoryQueryResult →
      Except Error (List HistoryQueryResult)
  | [], records => .ok records
  | .error err :: _, _ => .error (Error.platform err)
  | .ok response :: more, records =>
    let decoded : Option Rating :=
      if response.Value.length > 0 then json.Unmarshal response.Value Rating.zero
      else some { LedgerId := ledgerId, Rate := 0, RatedBy := [], OwnerId := [] }
    match decoded with
    | none => .error Error.decode
    | some rating =>
      match ptypesTimestamp response.Timestamp with
      | .error err => .error err
      | .ok timestamp =>
        let record : HistoryQueryResult :=
          { TxId := response.TxId, Timestamp := timestamp, Record := rating,
            IsDelete := response.IsDelete }
        historyLoop ledgerId more (records ++ [record])

/-- The method `GetAllRatings`. -/
def GetAllRatings (ctx : TransactionContext) (ledgerId : Bytes) (l : Ledger) :
    Except Error (List HistoryQueryResult) × Ledger :=
  match GetHistoryForKey ctx ledgerId l with
  | (.error err, l1) => (.error (Error.platform err), l1)
  | (.ok resultsIterator, l1) => (historyLoop ledgerId resultsIterator [], l1)

/-! ## Auxiliary definitions for the statements -/

/-- The string that encoding and decoding a Go string yields: valid runes are kept and
every byte that is not part of a valid UTF-8 sequence is replaced by the encoding of
U+FFFD.  `fuel` bounds the iterations; `s.length` is enough. -/
def coerceLoop : Nat → Bytes → Bytes
  | 0, _ => []
  | _ + 1, [] => []
  | fuel + 1, b :: rest =>
    let d := utf8.DecodeRune (b :: rest)
    if d.1 = utf8.RuneError ∧ d.2 = 1 then
      utf8.EncodeRune utf8.RuneError ++ coerceLoop fuel rest
    else (b :: rest).take d.2 ++ coerceLoop fuel ((b :: rest).drop d.2)

/-- The valid UTF-8 string a Go string is coerced to by `json.Marshal`. -/
def toValidUTF8 (s : Bytes) : Bytes := coerceLoop s.length s

/-- A key of the ledger that has never been written: it has no current value and its
history feed is empty. -/
def Ledger.neverWritten (l : Ledger) (k : Bytes) : Prop := l.state k = none ∧ l.history k = []

/-- The ledger after a successful `PutState`. -/
def Ledger.put (l : Ledger) (ctx : TransactionContext) (key value : Bytes) : Ledger :=
  { state := fun k => if k = key then some value else l.state k,
    history := fun k =>
      if k = key then
        l.history k ++
          [{ TxId := ctx.txId, Value := value, Timestamp := ctx.timestamp, IsDelete := false }]
      else l.history k }

/-- Modelled from the spec: a deletion of `key` made externally by the platform (this
service has no delete operation): the key loses its current value and its history gets
an entry without payload and with `IsDelete = true`. -/
def Ledger.delete (l : Ledger) (ctx : TransactionContext) (key : Bytes) : Ledger :=
  { state := fun k => if k = key then none else l.state k,
    history := fun k =>
      if k = key then
        l.history k ++
          [{ TxId := ctx.txId, Value := [], Timestamp := ctx.timestamp, IsDelete := true }]
      else l.history k }

/-- A transaction context in which every platform call succeeds, for a transaction with
the given identifier and commit time. -/
def TransactionContext.healthy (txId : Bytes) (ts : Timestamp) : TransactionContext :=
  { txId := txId, timestamp := some ts, getStateErr := fun _ => none,
    putStateErr := fun _ => none, getHistoryErr := fun _ => none,
    nextErr := fun _ _ => none }

/-- One invocation of a writing operation of the contract, with the context the platform
runs it in. -/
inductive Call where
  | init (ctx : TransactionContext) (userId serviceType : Bytes)
  | register (ctx : TransactionContext) (ledgerId : Bytes) (rate : Int) (userId : Bytes)

/-- The effect of a call on the ledger. -/
def Call.run : Call → Ledger → Except Error Unit × Ledger
  | Call.init ctx userId serviceType, l => InitLedger ctx userId serviceType l
  | Call.register ctx ledgerId rate userId, l => RegisterRate ctx ledgerId rate userId l

/-- The context a call runs in. -/
def Call.ctx : Call → TransactionContext
  | Call.init ctx _ _ => ctx
  | Call.register ctx _ _ _ => ctx

/-- The ledger key a call addresses. -/
def Call.key : Call → Bytes
  | Call.init _ userId serviceType => stringsJoin [userId, serviceType] (str ":")
  | Call.register _ ledgerId _ _ => ledgerId

/-- The entity a call constructs and writes. -/
def Call.entity : Call → Rating
  | Call.init _ userId serviceType =>
    { LedgerId := stringsJoin [userId, serviceType] (str ":"), Rate := 3,
      RatedBy := str "init", OwnerId := userId }
  | Call.register _ ledgerId rate userId =>
    { LedgerId := ledgerId, Rate := rate, RatedBy := userId, OwnerId := [] }

/-- The arguments of a call are values of their Go types: the rate fits Go's `int`. -/
def Call.wellTyped : Call → Prop
  | Call.init _ _ _ => True
  | Call.register _ _ rate _ => isInt64 rate

/-- The string arguments of a call are valid UTF-8. -/
def Call.validText : Call → Prop
  | Call.init _ userId serviceType => utf8.Valid userId = true ∧ utf8.Valid serviceType = true
  | Call.register _ ledgerId _ userId => utf8.Valid ledgerId = true ∧ utf8.Valid userId = true

/-- The ledger after running the calls in order, each on the state the previous one left. -/
def runCalls : List Call → Ledger → Ledger
  | [], l => l
  | c :: cs, l => runCalls cs (c.run l).2

/-- Every call of the sequence returns without error when the calls are run in order. -/
def allSucceed : List Call → Ledger → Prop
  | [], _ => True
  | c :: cs, l => (c.run l).1 = .ok () ∧ allSucceed cs (c.run l).2

/-- The history entry the platform records for the write a call makes. -/
def Call.modification (c : Call) : KeyModification :=
  { TxId := c.ctx.txId, Value := json.Marshal c.entity, Timestamp := c.ctx.timestamp,
    IsDelete := false }

/-- The snapshot `r` is the one that belongs to entry `km` of the history feed of
`ledgerId`: it carries the entry's transaction id, its deletion flag and its timestamp
converted to a time, and its record is the decoded payload when the payload is non-empty
and otherwise the stub that holds only the ledger id. -/
def IsSnapshotOf (ledgerId : Bytes) (km : KeyModification) (r : HistoryQueryResult) : Prop :=
  r.TxId = km.TxId ∧ r.IsDelete = km.IsDelete ∧
  ptypesTimestamp km.Timestamp = .ok r.Timestamp ∧
  (km.Value ≠ [] → json.Unmarshal km.Value Rating.zero = some r.Record) ∧
  (km.Value = [] →
    r.Record = { LedgerId := ledgerId, Rate := 0, RatedBy := [], OwnerId := [] })

/-- The snapshot `r` records the write made by call `c`: its record is the entity the call
wrote, it is not a deletion, and it carries the transaction id and commit time of the
call's transaction. -/
def RecordsCall (c : Call) (r : HistoryQueryResult) : Prop :=
  r.Record = c.entity ∧ r.IsDelete = false ∧ r.TxId = c.ctx.txId ∧
  ptypesTimestamp c.ctx.timestamp = .ok r.Timestamp

/-- The payload `v` is the encoding of an entity of key `k` as this service writes it: the
JSON of a `Rating` whose `LedgerId` is `k` and whose rate is a Go `int`. -/
def WrittenFor (k : Bytes) (v : Bytes) : Prop :=
  ∃ r : Rating, v = json.Marshal r ∧ r.LedgerId = k ∧ isInt64 r.Rate

/-- Invariant of the ledgers this service builds: the current value of every key and
every entry of its history is the encoding of an entity carrying that key. -/
def Ledger.Inv (l : Ledger) : Prop :=
  ∀ k, (∀ v, l.state k = some v → WrittenFor k v) ∧
    (∀ km ∈ l.history k, WrittenFor k km.Value)

/-- Current value and history agree at every key: the current value is the payload of the
newest entry of the key's history, and a key without history has no value. -/
def Ledger.Agree (l : Ledger) : Prop :=
  ∀ k, l.state k = ((l.history k).getLast?).map KeyModification.Value

/-! # Lemmas -/


theorem toNat_byte (n : Nat) : (byte n).toNat = n % 256 := rfl

theorem toNat_lt (b : UInt8) : b.toNat < 256 := b.toNat_lt

theorem byte_toNat (b : UInt8) : byte b.toNat = b := by
  apply UInt8.ext
  rw [toNat_byte]
  exact Nat.mod_eq_of_lt (toNat_lt b)

theorem byte_eq_of (n : Nat) (b : UInt8) (h : n = b.toNat) : byte n = b := by
  rw [h]; exact byte_toNat b

namespace utf8

theorem first_cases (n : Nat) (h1 : 0x80 ≤ n) :
    (first n = 0xF1 ∧ (n < 0xC2 ∨ 0xF4 < n)) ∨
    (first n = 0x02 ∧ 0xC2 ≤ n ∧ n < 0xE0) ∨
    (first n = 0x13 ∧ n = 0xE0) ∨
    (first n = 0x03 ∧ 0xE0 < n ∧ n < 0xF0 ∧ n ≠ 0xED) ∨
    (first n = 0x23 ∧ n = 0xED) ∨
    (first n = 0x34 ∧ n = 0xF0) ∨
    (first n = 0x04 ∧ 0xF0 < n ∧ n < 0xF4) ∨
    (first n = 0x44 ∧ n = 0xF4) := by
  simp only [first]
  split_ifs
  all_goals simp
  all_goals omega

theorem EncodeRune_two (b b1 : UInt8) (h0 : 0xC2 ≤ b.toNat) (h0' : b.toNat < 0xE0)
    (h1 : 0x80 ≤ b1.toNat) (h1' : b1.toNat ≤ 0xBF) :
    EncodeRune ((b.toNat % 32) * 64 + b1.toNat % 64) = [b, b1] := by
  unfold EncodeRune
  rw [if_neg (by omega), if_pos (by omega)]
  congr 1
  · exact byte_eq_of _ _ (by omega)
  · congr 1; exact byte_eq_of _ _ (by omega)

theorem EncodeRune_three (b b1 b2 : UInt8) (h0 : 0xE0 ≤ b.toNat) (h0' : b.toNat < 0xF0)
    (h1 : 0x80 ≤ b1.toNat) (h1' : b1.toNat ≤ 0xBF)
    (hlo : b.toNat = 0xE0 → 0xA0 ≤ b1.toNat) (hhi : b.toNat = 0xED → b1.toNat ≤ 0x9F)
    (h2 : 0x80 ≤ b2.toNat) (h2' : b2.toNat ≤ 0xBF) :
    EncodeRune ((b.toNat % 16) * 4096 + (b1.toNat % 64) * 64 + b2.toNat % 64)
      = [b, b1, b2] := by
  unfold EncodeRune
  rw [if_neg (by omega), if_neg (by omega), if_neg (by simp; omega), if_pos (by omega)]
  unfold encode3
  congr 1
  · exact byte_eq_of _ _ (by omega)
  · congr 1
    · exact byte_eq_of _ _ (by omega)
    · congr 1; exact byte_eq_of _ _ (by omega)

theorem EncodeRune_four (b b1 b2 b3 : UInt8) (h0 : 0xF0 ≤ b.toNat) (h0' : b.toNat ≤ 0xF4)
    (h1 : 0x80 ≤ b1.toNat) (h1' : b1.toNat ≤ 0xBF)
    (hlo : b.toNat = 0xF0 → 0x90 ≤ b1.toNat) (hhi : b.toNat = 0xF4 → b1.toNat ≤ 0x8F)
    (h2 : 0x80 ≤ b2.toNat) (h2' : b2.toNat ≤ 0xBF)
    (h3 : 0x80 ≤ b3.toNat) (h3' : b3.toNat ≤ 0xBF) :
    EncodeRune ((b.toNat % 8) * 262144 + (b1.toNat % 64) * 4096 + (b2.toNat % 64) * 64
      + b3.toNat % 64) = [b, b1, b2, b3] := by
  unfold EncodeRune
  rw [if_neg (by omega), if_neg (by omega), if_neg (by simp; omega), if_neg (by omega)]
  congr 1
  · exact byte_eq_of _ _ (by omega)
  · congr 1
    · exact byte_eq_of _ _ (by omega)
    · congr 1
      · exact byte_eq_of _ _ (by omega)
      · congr 1; exact byte_eq_of _ _ (by omega)


set_option maxHeartbeats 4000000 in
theorem DecodeRune_spec (b : UInt8) (rest : Bytes) (d : Nat × Nat) (t : Bytes)
    (hb : 0x80 ≤ b.toNat) (hd : DecodeRune (b :: rest) = d) :
    d = (RuneError, 1) ∨
    (EncodeRune d.1 = (b :: rest).take d.2 ∧ ((b :: rest).take d.2).length = d.2 ∧
      DecodeRune ((b :: rest).take d.2 ++ t) = d ∧ 2 ≤ d.2) := by
  rcases first_cases b.toNat hb with h | h | h | h | h | h | h | h
  all_goals obtain ⟨hf, hr⟩ := h
  · left
    rw [← hd]
    simp [DecodeRune, hf]
  · rcases rest with _ | ⟨b1, _ | ⟨b2, _ | ⟨b3, t⟩⟩⟩
    all_goals simp only [DecodeRune, hf, acceptRanges, isCont] at hd
    all_goals simp at hd
    all_goals try split_ifs at hd
    all_goals subst hd
    all_goals first
      | (left; with_reducible rfl)
      | (right
         refine ⟨?_, ?_, ?_, ?_⟩
         · simp only [List.take_succ_cons, List.take_zero]
           apply EncodeRune_two <;> omega
         · simp
         · simp only [List.take_succ_cons, List.take_zero]
           simp only [DecodeRune, hf, acceptRanges, isCont]
           simp [hf]
           split_ifs <;> first | with_reducible rfl | (exfalso; omega)
         · simp)
  · rcases rest with _ | ⟨b1, _ | ⟨b2, _ | ⟨b3, t⟩⟩⟩
    all_goals simp only [DecodeRune, hf, acceptRanges, isCont] at hd
    all_goals simp at hd
    all_goals try split_ifs at hd
    all_goals subst hd
    all_goals first
      | (left; with_reducible rfl)
      | (right
         refine ⟨?_, ?_, ?_, ?_⟩
         · simp only [List.take_succ_cons, List.take_zero]
           apply EncodeRune_three <;> omega
         · simp
         · simp only [List.take_succ_cons, List.take_zero]
           simp only [DecodeRune, hf, acceptRanges, isCont]
           simp [hf]
           split_ifs <;> first | with_reducible rfl | (exfalso; omega)
         · simp)
  · rcases rest with _ | ⟨b1, _ | ⟨b2, _ | ⟨b3, t⟩⟩⟩
    all_goals simp only [DecodeRune, hf, acceptRanges, isCont] at hd
    all_goals simp at hd
    all_goals try split_ifs at hd
    all_goals subst hd
    all_goals first
      | (left; with_reducible rfl)
      | (right
         refine ⟨?_, ?_, ?_, ?_⟩
         · simp only [List.take_succ_cons, List.take_zero]
           apply EncodeRune_three <;> omega
         · simp
         · simp only [List.take_succ_cons, List.take_zero]
           simp only [DecodeRune, hf, acceptRanges, isCont]
           simp [hf]
           split_ifs <;> first | with_reducible rfl | (exfalso; omega)
         · simp)
  · rcases rest with _ | ⟨b1, _ | ⟨b2, _ | ⟨b3, t⟩⟩⟩
    all_goals simp only [DecodeRune, hf, acceptRanges, isCont] at hd
    all_goals simp at hd
    all_goals try split_ifs at hd
    all_goals subst hd
    all_goals first
      | (left; with_reducible rfl)
      | (right
         refine ⟨?_, ?_, ?_, ?_⟩
         · simp only [List.take_succ_cons, List.take_zero]
           apply EncodeRune_three <;> omega
         · simp
         · simp only [List.take_succ_cons, List.take_zero]
           simp only [DecodeRune, hf, acceptRanges, isCont]
           simp [hf]
           split_ifs <;> first | with_reducible rfl | (exfalso; omega)
         · simp)
  · rcases rest with _ | ⟨b1, _ | ⟨b2, _ | ⟨b3, t⟩⟩⟩
    all_goals simp only [DecodeRune, hf, acceptRanges, isCont] at hd
    all_goals simp at hd
    all_goals try split_ifs at hd
    all_goals subst hd
    all_goals first
      | (left; with_reducible rfl)
      | (right
         refine ⟨?_, ?_, ?_, ?_⟩
         · simp only [List.take_succ_cons, List.take_zero]
           apply EncodeRune_four <;> omega
         · simp
         · simp only [List.take_succ_cons, List.take_zero]
           simp only [DecodeRune, hf, acceptRanges, isCont]
           simp [hf]
           split_ifs <;> first | with_reducible rfl | (exfalso; omega)
         · simp)
  · rcases rest with _ | ⟨b1, _ | ⟨b2, _ | ⟨b3, t⟩⟩⟩
    all_goals simp only [DecodeRune, hf, acceptRanges, isCont] at hd
    all_goals simp at hd
    all_goals try split_ifs at hd
    all_goals subst hd
    all_goals first
      | (left; with_reducible rfl)
      | (right
         refine ⟨?_, ?_, ?_, ?_⟩
         · simp only [List.take_succ_cons, List.take_zero]
           apply EncodeRune_four <;> omega
         · simp
         · simp only [List.take_succ_cons, List.take_zero]
           simp only [DecodeRune, hf, acceptRanges, isCont]
           simp [hf]
           split_ifs <;> first | with_reducible rfl | (exfalso; omega)
         · simp)
  · rcases rest with _ | ⟨b1, _ | ⟨b2, _ | ⟨b3, t⟩⟩⟩
    all_goals simp only [DecodeRune, hf, acceptRanges, isCont] at hd
    all_goals simp at hd
    all_goals try split_ifs at hd
    all_goals subst hd
    all_goals first
      | (left; with_reducible rfl)
      | (right
         refine ⟨?_, ?_, ?_, ?_⟩
         · simp only [List.take_succ_cons, List.take_zero]
           apply EncodeRune_four <;> omega
         · simp
         · simp only [List.take_succ_cons, List.take_zero]
           simp only [DecodeRune, hf, acceptRanges, isCont]
           simp [hf]
           split_ifs <;> first | with_reducible rfl | (exfalso; omega)
         · simp)

theorem DecodeRune_ascii (b : UInt8) (rest : Bytes) (h : b.toNat < 0x80) :
    DecodeRune (b :: rest) = (b.toNat, 1) := by
  have hf : first b.toNat = 0xF0 := by
    simp only [first]; rw [if_pos h]
  simp [DecodeRune, hf]

end utf8
namespace json

theorem unquoteLoop_quote (m : Nat) (rest : Bytes) :
    unquoteLoop (m + 1) (byte 0x22 :: rest) = some ([], rest) := by
  simp [unquoteLoop, toNat_byte]

theorem unquoteLoop_safe (m : Nat) (c : UInt8) (tail : Bytes) (h : htmlSafe c.toNat = true) :
    unquoteLoop (m + 1) (c :: tail)
      = (unquoteLoop m tail).map (fun p => (c :: p.1, p.2)) := by
  simp [htmlSafe] at h
  conv_lhs => unfold unquoteLoop
  simp only []
  rw [if_neg (by omega), if_neg (by omega), if_neg (by omega), if_pos (by omega)]

theorem unquoteLoop_multi (m : Nat) (c : UInt8) (tail : Bytes) (h : 0x80 ≤ c.toNat) :
    unquoteLoop (m + 1) (c :: tail)
      = (unquoteLoop m ((c :: tail).drop (utf8.DecodeRune (c :: tail)).2)).map
          (fun p => (utf8.EncodeRune (utf8.DecodeRune (c :: tail)).1 ++ p.1, p.2)) := by
  conv_lhs => unfold unquoteLoop
  simp only []
  rw [if_neg (by omega), if_neg (by omega), if_neg (by omega), if_neg (by omega)]

theorem hexVal_hex (n : Nat) (h : n < 16) : hexVal (hex n) = some n := by
  interval_cases n <;> rfl

theorem unquoteLoop_u (m : Nat) (a b c d : Nat) (ha : a < 16) (hb : b < 16) (hc : c < 16)
    (hd : d < 16) (tail : Bytes) (hs : isSurrogate (a * 4096 + b * 256 + c * 16 + d) = false) :
    unquoteLoop (m + 1) (byte 0x5C :: byte 0x75 :: hex a :: hex b :: hex c :: hex d :: tail)
      = (unquoteLoop m tail).map
          (fun p => (utf8.EncodeRune (a * 4096 + b * 256 + c * 16 + d) ++ p.1, p.2)) := by
  rw [unquoteLoop, if_neg (by simp [toNat_byte]), if_pos (by simp [toNat_byte])]
  simp only [toNat_byte, getu4, hexVal_hex, ha, hb, hc, hd]
  simp [hs]

theorem unquoteLoop_escape (m : Nat) (c : UInt8) (tail : Bytes) (h1 : c.toNat < 0x80)
    (h2 : htmlSafe c.toNat = false) :
    unquoteLoop (m + 1) (escapeByte c.toNat ++ tail)
      = (unquoteLoop m tail).map (fun p => (c :: p.1, p.2)) := by
  unfold escapeByte
  split_ifs with h3 h4 h5 h6
  · have hc : byte c.toNat = c := byte_toNat c
    rw [hc]
    simp only [List.cons_append, List.nil_append]
    rw [unquoteLoop, if_neg (by simp [toNat_byte]), if_pos (by simp [toNat_byte])]
    simp only []
    rw [if_neg (by omega)]
    have : simpleEscape c.toNat = some c := by
      simp [simpleEscape, h3, hc]
      rcases h3 with h3 | h3 <;> simp [h3, hc]
    rw [this]
  · have hc : c = byte 0x0A := (byte_eq_of _ _ h4.symm).symm
    subst hc
    simp [unquoteLoop, toNat_byte, simpleEscape]
  · have hc : c = byte 0x0D := (byte_eq_of _ _ h5.symm).symm
    subst hc
    simp [unquoteLoop, toNat_byte, simpleEscape]
  · have hc : c = byte 0x09 := (byte_eq_of _ _ h6.symm).symm
    subst hc
    simp [unquoteLoop, toNat_byte, simpleEscape]
  · have h0 : byte 0x30 = hex 0 := rfl
    simp only [List.cons_append, List.nil_append, h0]
    rw [unquoteLoop_u m 0 0 (c.toNat / 16) (c.toNat % 16) (by omega) (by omega) (by omega)
      (by omega) tail (by simp [isSurrogate]; omega)]
    have e : 0 * 4096 + 0 * 256 + c.toNat / 16 * 16 + c.toNat % 16 = c.toNat := by omega
    rw [e]
    have : utf8.EncodeRune c.toNat = [c] := by
      rw [utf8.EncodeRune, if_pos (by omega), byte_toNat]
    rw [this]
    rfl


theorem escapeByte_length_pos (n : Nat) : 0 < (escapeByte n).length := by
  unfold escapeByte
  split_ifs <;> simp

theorem unquoteLoop_stringLoop (fuel : Nat) :
    ∀ (s rest : Bytes) (n : Nat), (stringLoop fuel s).length < n →
      unquoteLoop n (stringLoop fuel s ++ byte 0x22 :: rest) = some (coerceLoop fuel s, rest) := by
  induction fuel with
  | zero =>
    intro s rest n hn
    obtain ⟨m, rfl⟩ : ∃ m, n = m + 1 := ⟨n - 1, by omega⟩
    simp [stringLoop, coerceLoop, unquoteLoop_quote]
  | succ fuel ih =>
    intro s rest n hn
    obtain ⟨m, rfl⟩ : ∃ m, n = m + 1 := ⟨n - 1, by omega⟩
    cases s with
    | nil => simp [stringLoop, coerceLoop, unquoteLoop_quote]
    | cons b rest0 =>
      by_cases hb : b.toNat < 0x80
      · have hd := utf8.DecodeRune_ascii b rest0 hb
        have hco : coerceLoop (fuel + 1) (b :: rest0) = b :: coerceLoop fuel rest0 := by
          rw [coerceLoop]
          simp only [hd]
          rw [if_neg (by simp [utf8.RuneError]; omega)]
          simp
        rw [hco]
        by_cases hs : htmlSafe b.toNat = true
        · have hst : stringLoop (fuel + 1) (b :: rest0) = b :: stringLoop fuel rest0 := by
            rw [stringLoop, if_pos hb, if_pos hs]
          rw [hst] at hn ⊢
          simp only [List.cons_append]
          rw [unquoteLoop_safe m b _ hs, ih rest0 rest m (by simpa using hn)]
          rfl
        · have hst : stringLoop (fuel + 1) (b :: rest0)
              = escapeByte b.toNat ++ stringLoop fuel rest0 := by
            rw [stringLoop, if_pos hb, if_neg hs]
          rw [hst] at hn ⊢
          have hl := escapeByte_length_pos b.toNat
          rw [List.append_assoc, unquoteLoop_escape m b _ hb (by simpa using hs),
            ih rest0 rest m (by simp at hn; omega)]
          rfl
      · have hb' : 0x80 ≤ b.toNat := by omega
        by_cases hv : (utf8.DecodeRune (b :: rest0)).1 = utf8.RuneError
            ∧ (utf8.DecodeRune (b :: rest0)).2 = 1
        · have hst : stringLoop (fuel + 1) (b :: rest0)
              = str "\\ufffd" ++ stringLoop fuel rest0 := by
            rw [stringLoop, if_neg hb]
            try dsimp only
            rw [if_pos hv]
          have hco : coerceLoop (fuel + 1) (b :: rest0)
              = utf8.EncodeRune utf8.RuneError ++ coerceLoop fuel rest0 := by
            rw [coerceLoop]
            try dsimp only
            rw [if_pos hv]
          have hstr : str "\\ufffd"
              = [byte 0x5C, byte 0x75, hex 15, hex 15, hex 15, hex 13] := by decide
          rw [hst, hstr] at hn ⊢
          rw [hco]
          simp only [List.cons_append, List.nil_append]
          rw [unquoteLoop_u m 15 15 15 13 (by omega) (by omega) (by omega) (by omega) _
            (by decide), ih rest0 rest m (by simp at hn; omega)]
          rfl
        · rcases utf8.DecodeRune_spec b rest0 _
            (stringLoop fuel ((b :: rest0).drop (utf8.DecodeRune (b :: rest0)).2)
              ++ byte 0x22 :: rest) hb' rfl with h | ⟨hP1, hP2, hP3, hP4⟩
          · exact absurd (by rw [h]; exact ⟨rfl, rfl⟩) hv
          · have hco : coerceLoop (fuel + 1) (b :: rest0)
                = (b :: rest0).take (utf8.DecodeRune (b :: rest0)).2
                  ++ coerceLoop fuel ((b :: rest0).drop (utf8.DecodeRune (b :: rest0)).2) := by
              rw [coerceLoop]
              try dsimp only
              rw [if_neg hv]
            rw [hco]
            by_cases h28 : (utf8.DecodeRune (b :: rest0)).1 = 0x2028
                ∨ (utf8.DecodeRune (b :: rest0)).1 = 0x2029
            · have hst : stringLoop (fuel + 1) (b :: rest0)
                  = [byte 0x5C, byte 0x75, byte 0x32, byte 0x30, byte 0x32,
                      hex ((utf8.DecodeRune (b :: rest0)).1 % 16)]
                    ++ stringLoop fuel ((b :: rest0).drop (utf8.DecodeRune (b :: rest0)).2) := by
                rw [stringLoop, if_neg hb]
                try dsimp only
                rw [if_neg hv, if_pos h28]
              rw [hst] at hn ⊢
              have h2 : byte 0x32 = hex 2 := rfl
              have h0 : byte 0x30 = hex 0 := rfl
              simp only [List.cons_append, List.nil_append, h2, h0]
              rw [unquoteLoop_u m 2 0 2 _ (by omega) (by omega) (by omega) (by omega) _
                (by simp [isSurrogate]; omega), ih _ rest m (by simp at hn; omega)]
              have e : 2 * 4096 + 0 * 256 + 2 * 16 + (utf8.DecodeRune (b :: rest0)).1 % 16
                  = (utf8.DecodeRune (b :: rest0)).1 := by omega
              rw [e, hP1]
              rfl
            · have hst : stringLoop (fuel + 1) (b :: rest0)
                  = (b :: rest0).take (utf8.DecodeRune (b :: rest0)).2
                    ++ stringLoop fuel ((b :: rest0).drop (utf8.DecodeRune (b :: rest0)).2) := by
                rw [stringLoop, if_neg hb]
                try dsimp only
                rw [if_neg hv, if_neg h28]
              rw [hst] at hn ⊢
              obtain ⟨k, hk⟩ : ∃ k, (utf8.DecodeRune (b :: rest0)).2 = k + 1 :=
                ⟨(utf8.DecodeRune (b :: rest0)).2 - 1, by omega⟩
              have htake : (b :: rest0).take (utf8.DecodeRune (b :: rest0)).2
                  = b :: rest0.take k := by rw [hk, List.take_succ_cons]
              rw [List.append_assoc]
              rw [htake] at hP3 ⊢
              rw [List.cons_append, unquoteLoop_multi m b _ hb', ← List.cons_append, hP3]
              rw [← htake, List.drop_left' hP2, ih _ rest m (by
                simp only [List.length_append, hP2] at hn; omega)]
              rw [hP1]
              rfl


theorem coerceLoop_valid (fuel : Nat) :
    ∀ s : Bytes, utf8.validLoop fuel s = true → coerceLoop fuel s = s := by
  induction fuel with
  | zero =>
    intro s h
    cases s with
    | nil => rfl
    | cons b rest => simp [utf8.validLoop] at h
  | succ fuel ih =>
    intro s h
    cases s with
    | nil => rfl
    | cons b rest =>
      rw [utf8.validLoop] at h
      rw [coerceLoop]
      by_cases hv : (utf8.DecodeRune (b :: rest)).1 = utf8.RuneError
          ∧ (utf8.DecodeRune (b :: rest)).2 = 1
      · simp [hv] at h
      · simp only [hv, if_false] at h ⊢
        rw [ih _ h, List.take_append_drop]

theorem toValidUTF8_valid (s : Bytes) (h : utf8.Valid s = true) : toValidUTF8 s = s :=
  coerceLoop_valid s.length s h

theorem readString_encodeString (s rest : Bytes) :
    readString (encodeString s ++ rest) = some (toValidUTF8 s, rest) := by
  unfold encodeString readString toValidUTF8
  simp only [List.cons_append, List.append_assoc, List.singleton_append]
  rw [if_pos (by simp [toNat_byte])]
  exact unquoteLoop_stringLoop s.length s rest _ (by simp; omega)

end json

/-! ### Numbers -/

theorem isDigit_byte (n : Nat) (h : n < 10) : isDigit (byte (0x30 + n)) = true := by
  simp [isDigit, toNat_byte]; omega

theorem parseDigits_formatDigits (fuel : Nat) :
    ∀ (n : Nat) (acc : Bytes), n < fuel →
      ∃ k, ∀ a, parseDigits a (formatDigits fuel n acc) = parseDigits (a * 10 ^ k + n) acc := by
  induction fuel with
  | zero => intro n acc h; omega
  | succ fuel ih =>
    intro n acc h
    rw [formatDigits]
    by_cases h0 : n / 10 = 0
    · refine ⟨1, fun a => ?_⟩
      simp only [h0, if_true]
      rw [parseDigits, if_pos (isDigit_byte _ (Nat.mod_lt _ (by omega)))]
      congr 1
      rw [toNat_byte]
      omega
    · obtain ⟨k, hk⟩ := ih (n / 10) (byte (0x30 + n % 10) :: acc) (by omega)
      refine ⟨k + 1, fun a => ?_⟩
      simp only [h0, if_false]
      rw [hk, parseDigits, if_pos (isDigit_byte _ (Nat.mod_lt _ (by omega)))]
      congr 1
      rw [toNat_byte, pow_succ]
      have : (0x30 + n % 10) % 256 - 0x30 = n % 10 := by omega
      rw [this]
      have := Nat.div_add_mod n 10
      nlinarith [this]

theorem formatDigits_acc (fuel : Nat) :
    ∀ (n : Nat) (acc : Bytes), formatDigits fuel n acc = formatDigits fuel n [] ++ acc := by
  induction fuel with
  | zero => intro n acc; rfl
  | succ fuel ih =>
    intro n acc
    rw [formatDigits, formatDigits]
    by_cases h0 : n / 10 = 0
    · simp [h0]
    · simp only [h0, if_false]
      rw [ih _ (_ :: acc), ih _ [_]]
      simp

theorem formatDigits_digits (fuel : Nat) :
    ∀ (n : Nat) (acc : Bytes), (∀ x ∈ acc, isDigit x = true) →
      ∀ x ∈ formatDigits fuel n acc, isDigit x = true := by
  induction fuel with
  | zero => intro n acc h; exact h
  | succ fuel ih =>
    intro n acc h
    rw [formatDigits]
    have hacc : ∀ x ∈ byte (0x30 + n % 10) :: acc, isDigit x = true := by
      intro x hx
      rcases List.mem_cons.mp hx with rfl | hx
      · exact isDigit_byte _ (Nat.mod_lt _ (by omega))
      · exact h x hx
    by_cases h0 : n / 10 = 0
    · simpa [h0] using hacc
    · simp only [h0, if_false]
      exact ih _ _ hacc

theorem formatDigits_head (fuel : Nat) :
    ∀ (n : Nat) (acc : Bytes), 0 < n → n < fuel →
      ∃ d tl, formatDigits fuel n acc = d :: tl ∧ 0x31 ≤ d.toNat ∧ d.toNat ≤ 0x39 := by
  induction fuel with
  | zero => intro n acc _ h; omega
  | succ fuel ih =>
    intro n acc hn h
    rw [formatDigits]
    by_cases h0 : n / 10 = 0
    · refine ⟨byte (0x30 + n % 10), acc, by simp [h0], ?_, ?_⟩ <;> rw [toNat_byte] <;> omega
    · simp only [h0, if_false]
      exact ih _ _ (by omega) (by omega)

theorem spanDigits_append (ds : Bytes) (c : UInt8) (rest : Bytes)
    (hds : ∀ x ∈ ds, isDigit x = true) (hc : isDigit c = false) :
    json.spanDigits (ds ++ c :: rest) = (ds, c :: rest) := by
  induction ds with
  | nil => simp [json.spanDigits, hc]
  | cons d ds ih =>
    have hd : isDigit d = true := hds d (List.mem_cons_self _ _)
    have := ih (fun x hx => hds x (List.mem_cons_of_mem _ hx))
    simp [json.spanDigits, hd, this]

theorem parseInt64_formatInt (i : Int) (h : isInt64 i) : parseInt64 (formatInt i) = some i := by
  obtain ⟨k, hk⟩ := parseDigits_formatDigits (i.natAbs + 1) i.natAbs [] (by omega)
  have hp : parseDigits 0 (formatDigits (i.natAbs + 1) i.natAbs []) = some i.natAbs := by
    rw [hk]; simp [parseDigits]
  have hne : ∃ d tl, formatDigits (i.natAbs + 1) i.natAbs [] = d :: tl ∧ isDigit d = true := by
    have hall := formatDigits_digits (i.natAbs + 1) i.natAbs [] (by simp)
    cases hfd : formatDigits (i.natAbs + 1) i.natAbs [] with
    | nil =>
      rw [formatDigits_acc] at hfd
      rw [formatDigits] at hfd
      split_ifs at hfd
      · simp at hfd
      · rw [formatDigits_acc] at hfd; simp at hfd
    | cons d tl => exact ⟨d, tl, rfl, hall d (by rw [hfd]; exact List.mem_cons_self _ _)⟩
  obtain ⟨d, tl, hfd, hd⟩ := hne
  unfold isInt64 at h
  unfold formatInt parseInt64
  by_cases hneg : i < 0
  · rw [if_pos hneg]
    simp only [toNat_byte]
    rw [if_pos (by decide)]
    rw [hfd] at hp ⊢
    simp only [hp]
    have : (-(i.natAbs : Int)) = i := by omega
    simp only [if_true, this]
    rw [if_pos h]
  · rw [if_neg hneg, hfd]
    simp [isDigit] at hd
    simp only []
    rw [if_neg (by omega), if_neg (by omega)]
    rw [hfd] at hp
    simp only [hp]
    have : ((i.natAbs : Int)) = i := by omega
    simp only [Bool.false_eq_true, if_false, this]
    rw [if_pos h]


theorem readNumber_digits (sign : Bytes) (d : UInt8) (tl : Bytes) (c : UInt8) (rest : Bytes)
    (hsign : sign = [] ∨ sign = [byte 0x2D])
    (hd1 : 0x31 ≤ d.toNat) (hd2 : d.toNat ≤ 0x39)
    (htl : ∀ x ∈ tl, isDigit x = true) (hc : c.toNat = 0x2C) :
    json.readNumber (sign ++ d :: (tl ++ c :: rest)) = some (sign ++ d :: tl, c :: rest) := by
  have hcd : isDigit c = false := by simp [isDigit, hc]
  have hdd : isDigit d = true := by simp [isDigit]; omega
  have hsp : json.spanDigits (d :: (tl ++ c :: rest)) = (d :: tl, c :: rest) := by
    have := spanDigits_append (d :: tl) c rest (by
      intro x hx
      rcases List.mem_cons.mp hx with rfl | hx
      · exact hdd
      · exact htl x hx) hcd
    simpa using this
  rcases hsign with rfl | rfl
  · simp only [json.readNumber, List.nil_append]
    rw [if_neg (by omega)]
    simp only []
    rw [if_neg (by omega), if_pos hdd, hsp]
    simp [hc]
  · simp only [json.readNumber, List.cons_append, List.nil_append, toNat_byte]
    rw [if_pos (by decide)]
    simp only []
    rw [if_neg (by omega), if_pos hdd, hsp]
    simp [hc]

theorem readNumber_formatInt (i : Int) (c : UInt8) (rest : Bytes) (hc : c.toNat = 0x2C) :
    json.readNumber (formatInt i ++ c :: rest) = some (formatInt i, c :: rest) := by
  have hall := formatDigits_digits (i.natAbs + 1) i.natAbs [] (by simp)
  by_cases h0 : i.natAbs = 0
  · have hi : i = 0 := by omega
    subst hi
    have : formatInt 0 = [byte 0x30] := by decide
    rw [this]
    simp [json.readNumber, toNat_byte, hc]
  · obtain ⟨d, tl, hfd, hd1, hd2⟩ := formatDigits_head (i.natAbs + 1) i.natAbs [] (by omega)
      (by omega)
    have htl : ∀ x ∈ tl, isDigit x = true := fun x hx =>
      hall x (by rw [hfd]; exact List.mem_cons_of_mem _ hx)
    unfold formatInt
    by_cases hneg : i < 0
    · rw [if_pos hneg, hfd]
      have := readNumber_digits [byte 0x2D] d tl c rest (Or.inr rfl) hd1 hd2 htl hc
      simpa using this
    · rw [if_neg hneg, hfd]
      have := readNumber_digits [] d tl c rest (Or.inl rfl) hd1 hd2 htl hc
      simpa using this


namespace json

theorem skipSpace_cons (c : UInt8) (t : Bytes) (h : isSpace c = false) :
    skipSpace (c :: t) = c :: t := by
  rw [skipSpace, if_neg (by simp [h])]

theorem encodeString_append (v rest : Bytes) :
    encodeString v ++ rest = byte 0x22 :: (stringLoop v.length v ++ byte 0x22 :: rest) := by
  simp [encodeString]

theorem skipSpace_encodeString (v rest : Bytes) :
    skipSpace (encodeString v ++ rest) = encodeString v ++ rest := by
  rw [encodeString_append, skipSpace_cons _ _ (by decide)]

theorem decodeStringField_encodeString (set : Bytes → Rating) (keep : Rating)
    (v rest : Bytes) :
    decodeStringField set keep (encodeString v ++ rest) = some (set (toValidUTF8 v), rest) := by
  have h := readString_encodeString v rest
  rw [encodeString_append] at h ⊢
  rw [decodeStringField]
  try dsimp only
  rw [if_pos (by decide), h]
  rfl

theorem formatInt_head (i : Int) (c : UInt8) (rest : Bytes) (hc : c.toNat = 0x2C) :
    ∃ d tl, formatInt i ++ c :: rest = d :: tl ∧ d.toNat ≠ 0x6E ∧ isSpace d = false := by
  have hall := formatDigits_digits (i.natAbs + 1) i.natAbs [] (by simp)
  unfold formatInt
  by_cases hneg : i < 0
  · exact ⟨byte 0x2D, _, by rw [if_pos hneg]; rfl, by decide, by decide⟩
  · rw [if_neg hneg]
    cases hfd : formatDigits (i.natAbs + 1) i.natAbs [] with
    | nil => exact ⟨c, rest, rfl, by omega, by simp [isSpace, hc]⟩
    | cons d tl =>
      have hd := hall d (by rw [hfd]; exact List.mem_cons_self _ _)
      simp [isDigit] at hd
      refine ⟨d, _, rfl, by omega, ?_⟩
      simp [isSpace]
      omega

theorem skipSpace_formatInt (i : Int) (c : UInt8) (rest : Bytes) (hc : c.toNat = 0x2C) :
    skipSpace (formatInt i ++ c :: rest) = formatInt i ++ c :: rest := by
  obtain ⟨d, tl, hdt, _, hsp⟩ := formatInt_head i c rest hc
  rw [hdt, skipSpace_cons _ _ hsp]

theorem decodeIntField_formatInt (r : Rating) (i : Int) (hi : isInt64 i) (c : UInt8)
    (rest : Bytes) (hc : c.toNat = 0x2C) :
    decodeIntField r (formatInt i ++ c :: rest) = some ({ r with Rate := i }, c :: rest) := by
  have h := readNumber_formatInt i c rest hc
  have hp := parseInt64_formatInt i hi
  obtain ⟨d, tl, hdt, hd, _⟩ := formatInt_head i c rest hc
  rw [hdt] at h ⊢
  rw [decodeIntField]
  try dsimp only
  rw [if_neg hd, h]
  simp only [hp]

theorem decodeMembers_step (f : Nat) (r r1 : Rating) (key v : Bytes) (d : UInt8)
    (tail : Bytes) (fld : Field) (hfld : findField (toValidUTF8 key) = some fld)
    (hv : skipSpace v = v) (hd : isSpace d = false)
    (hres : (match fld with
      | Field.ledgerId => decodeStringField (fun x => { r with LedgerId := x }) r v
      | Field.rate => decodeIntField r v
      | Field.ratedBy => decodeStringField (fun x => { r with RatedBy := x }) r v
      | Field.ownerId => decodeStringField (fun x => { r with OwnerId := x }) r v)
        = some (r1, d :: tail)) :
    decodeMembers (f + 1) r (encodeString key ++ byte 0x3A :: v)
      = if d.toNat = 0x2C then decodeMembers f r1 (skipSpace tail)
        else if d.toNat = 0x7D then some (r1, tail) else none := by
  rw [decodeMembers, readString_encodeString]
  try dsimp only
  rw [skipSpace_cons _ _ (by decide)]
  try dsimp only
  rw [if_pos (by decide), hv, hfld]
  cases fld <;> simp only [] at hres ⊢ <;> rw [hres] <;> try dsimp only
  all_goals rw [skipSpace_cons _ _ hd]

end json

theorem Unmarshal_Marshal (r r0 : Rating) (h : isInt64 r.Rate) :
    json.Unmarshal (json.Marshal r) r0
      = some { LedgerId := toValidUTF8 r.LedgerId, Rate := r.Rate,
               RatedBy := toValidUTF8 r.RatedBy, OwnerId := toValidUTF8 r.OwnerId } := by
  have hk1 : str "\"ledgerId\":" = json.encodeString (str "ledgerId") ++ [byte 0x3A] := by
    decide
  have hk2 : str ",\"rate\":" = byte 0x2C :: (json.encodeString (str "rate") ++ [byte 0x3A]) := by
    decide
  have hk3 : str ",\"ratedBy\":"
      = byte 0x2C :: (json.encodeString (str "ratedBy") ++ [byte 0x3A]) := by decide
  have hk4 : str ",\"ownerId\":"
      = byte 0x2C :: (json.encodeString (str "ownerId") ++ [byte 0x3A]) := by decide
  have hf1 : json.findField (toValidUTF8 (str "ledgerId")) = some json.Field.ledgerId := by
    decide
  have hf2 : json.findField (toValidUTF8 (str "rate")) = some json.Field.rate := by decide
  have hf3 : json.findField (toValidUTF8 (str "ratedBy")) = some json.Field.ratedBy := by
    decide
  have hf4 : json.findField (toValidUTF8 (str "ownerId")) = some json.Field.ownerId := by
    decide
  obtain ⟨n, hn⟩ : ∃ n, (json.Marshal r).length + 1 = n + 4 := by
    refine ⟨(json.Marshal r).length - 3, ?_⟩
    have : 3 ≤ (json.Marshal r).length := by
      simp [json.Marshal, json.encodeString]; omega
    omega
  rw [json.Unmarshal, hn]
  unfold json.Marshal
  rw [hk1, hk2, hk3, hk4]
  simp only [List.append_assoc, List.cons_append, List.nil_append]
  rw [json.skipSpace_cons _ _ (by decide)]
  try dsimp only
  rw [if_pos (by decide), json.skipSpace_encodeString, json.encodeString_append]
  try dsimp only
  rw [if_neg (by decide), ← json.encodeString_append]
  rw [json.decodeMembers_step (n + 3) r0 { r0 with LedgerId := toValidUTF8 r.LedgerId }
    (str "ledgerId") _ (byte 0x2C) _ _ hf1 (json.skipSpace_encodeString _ _) (by decide)
    (json.decodeStringField_encodeString _ _ _ _)]
  rw [if_pos (by decide), json.skipSpace_encodeString]
  rw [json.decodeMembers_step (n + 2) _
    { LedgerId := toValidUTF8 r.LedgerId, Rate := r.Rate, RatedBy := r0.RatedBy,
      OwnerId := r0.OwnerId }
    (str "rate") _ (byte 0x2C) _ _ hf2 (json.skipSpace_formatInt _ _ _ (by decide)) (by decide)
    (json.decodeIntField_formatInt _ _ h _ _ (by decide))]
  rw [if_pos (by decide), json.skipSpace_encodeString]
  rw [json.decodeMembers_step (n + 1) _
    { LedgerId := toValidUTF8 r.LedgerId, Rate := r.Rate, RatedBy := toValidUTF8 r.RatedBy,
      OwnerId := r0.OwnerId }
    (str "ratedBy") _ (byte 0x2C) _ _ hf3 (json.skipSpace_encodeString _ _) (by decide)
    (json.decodeStringField_encodeString _ _ _ _)]
  rw [if_pos (by decide), json.skipSpace_encodeString]
  rw [json.decodeMembers_step n _
    { LedgerId := toValidUTF8 r.LedgerId, Rate := r.Rate, RatedBy := toValidUTF8 r.RatedBy,
      OwnerId := toValidUTF8 r.OwnerId }
    (str "ownerId") _ (byte 0x7D) _ _ hf4 (json.skipSpace_encodeString _ _) (by decide)
    (json.decodeStringField_encodeString _ _ _ _)]
  rw [if_neg (by decide), if_pos (by decide)]
  rfl


/-! ### Valid UTF-8 and concatenation -/

namespace utf8

theorem validLoop_succ (fuel : Nat) :
    ∀ s : Bytes, validLoop fuel s = true → validLoop (fuel + 1) s = true := by
  induction fuel with
  | zero =>
    intro s h
    cases s with
    | nil => rfl
    | cons b rest => simp [validLoop] at h
  | succ fuel ih =>
    intro s h
    cases s with
    | nil => rfl
    | cons b rest =>
      rw [validLoop] at h ⊢
      by_cases hv : (DecodeRune (b :: rest)).1 = RuneError ∧ (DecodeRune (b :: rest)).2 = 1
      · simp [hv] at h
      · simp only [hv, if_false] at h ⊢
        exact ih _ h

theorem validLoop_add (fuel k : Nat) (s : Bytes) (h : validLoop fuel s = true) :
    validLoop (fuel + k) s = true := by
  induction k with
  | zero => exact h
  | succ k ih => exact validLoop_succ _ _ ih

theorem validLoop_append (f1 : Nat) :
    ∀ (a b : Bytes) (f2 : Nat), validLoop f1 a = true → validLoop f2 b = true →
      validLoop (f1 + f2) (a ++ b) = true := by
  induction f1 with
  | zero =>
    intro a b f2 ha hb
    cases a with
    | nil => simpa using hb
    | cons x rest => simp [validLoop] at ha
  | succ f1 ih =>
    intro a b f2 ha hb
    cases a with
    | nil =>
      have := validLoop_add f2 (f1 + 1) b hb
      rw [Nat.add_comm] at this
      simpa using this
    | cons x rest =>
      rw [validLoop] at ha
      have hfuel : f1 + 1 + f2 = (f1 + f2) + 1 := by omega
      rw [hfuel, List.cons_append, validLoop]
      by_cases hv : (DecodeRune (x :: rest)).1 = RuneError ∧ (DecodeRune (x :: rest)).2 = 1
      · simp [hv] at ha
      · simp only [hv, if_false] at ha
        by_cases hx : x.toNat < 0x80
        · have h1 := DecodeRune_ascii x rest hx
          have h2 := DecodeRune_ascii x (rest ++ b) hx
          rw [h1] at ha
          rw [h2]
          rw [if_neg (by simp [RuneError]; omega)]
          simpa using ih _ b f2 (by simpa using ha) hb
        · rcases DecodeRune_spec x rest _ ((x :: rest).drop (DecodeRune (x :: rest)).2 ++ b)
            (by omega) rfl with h | ⟨_, hP2, hP3, _⟩
          · exact absurd (by rw [h]; exact ⟨rfl, rfl⟩) hv
          · have hsplit : (x :: rest).take (DecodeRune (x :: rest)).2
                ++ ((x :: rest).drop (DecodeRune (x :: rest)).2 ++ b) = x :: (rest ++ b) := by
              rw [← List.append_assoc, List.take_append_drop, List.cons_append]
            rw [hsplit] at hP3
            rw [hP3, if_neg hv, ← hsplit, List.drop_left' hP2]
            exact ih _ b f2 ha hb

theorem Valid_append (a b : Bytes) (ha : Valid a = true) (hb : Valid b = true) :
    Valid (a ++ b) = true := by
  unfold Valid at *
  rw [List.length_append]
  exact validLoop_append _ a b _ ha hb

end utf8

/-! ## The platform calls and the operations, step by step -/

theorem stringsJoin_pair (a b sep : Bytes) : stringsJoin [a, b] sep = a ++ sep ++ b := by
  simp [stringsJoin]

theorem LedgerExists_eq (ctx : TransactionContext) (k : Bytes) (l : Ledger)
    (hget : ctx.getStateErr k = none) :
    LedgerExists ctx k l = (.ok (l.state k != none), l) := by
  simp [LedgerExists, GetState, hget]

theorem LedgerExists_snd (ctx : TransactionContext) (k : Bytes) (l : Ledger) :
    (LedgerExists ctx k l).2 = l := by
  unfold LedgerExists GetState
  cases ctx.getStateErr k <;> rfl

theorem ReadLedger_snd (ctx : TransactionContext) (k : Bytes) (l : Ledger) :
    (ReadLedger ctx k l).2 = l := by
  unfold ReadLedger GetState
  cases ctx.getStateErr k with
  | some msg => rfl
  | none =>
    cases l.state k with
    | none => rfl
    | some v =>
      simp only []
      cases json.Unmarshal v Rating.zero <;> rfl

theorem GetAllRatings_snd (ctx : TransactionContext) (k : Bytes) (l : Ledger) :
    (GetAllRatings ctx k l).2 = l := by
  unfold GetAllRatings GetHistoryForKey
  cases ctx.getHistoryErr k <;> rfl

theorem PutState_eq (ctx : TransactionContext) (key value : Bytes) (l : Ledger) :
    PutState ctx key value l
      = match ctx.putStateErr key with
        | some msg => (.error msg, l)
        | none => (.ok (), l.put ctx key value) := by
  unfold PutState Ledger.put
  cases ctx.putStateErr key <;> rfl

theorem RegisterRate_eq (ctx : TransactionContext) (k : Bytes) (rate : Int) (u : Bytes)
    (l : Ledger) :
    RegisterRate ctx k rate u l
      = match ctx.putStateErr k with
        | some msg => (.error (Error.platform msg), l)
        | none =>
          (.ok (), l.put ctx k
            (json.Marshal { LedgerId := k, Rate := rate, RatedBy := u, OwnerId := [] })) := by
  unfold RegisterRate
  dsimp only
  rw [PutState_eq]
  cases ctx.putStateErr k <;> rfl

theorem InitLedger_eq (ctx : TransactionContext) (o s : Bytes) (l : Ledger) :
    InitLedger ctx o s l
      = match ctx.getStateErr (o ++ str ":" ++ s) with
        | some msg => (.error (Error.readWorldState msg), l)
        | none =>
          match l.state (o ++ str ":" ++ s) with
          | some _ => (.error (Error.alreadyExists (o ++ str ":" ++ s)), l)
          | none =>
            match ctx.putStateErr (o ++ str ":" ++ s) with
            | some msg => (.error (Error.platform msg), l)
            | none =>
              (.ok (), l.put ctx (o ++ str ":" ++ s)
                (json.Marshal { LedgerId := o ++ str ":" ++ s, Rate := 3,
                                RatedBy := str "init", OwnerId := o })) := by
  unfold InitLedger
  simp only [stringsJoin_pair]
  unfold LedgerExists GetState
  cases hg : ctx.getStateErr (o ++ str ":" ++ s) with
  | some msg => rfl
  | none =>
    cases hs : l.state (o ++ str ":" ++ s) with
    | some v => rfl
    | none =>
      simp only [PutState_eq]
      cases ctx.putStateErr (o ++ str ":" ++ s) <;> rfl

theorem ReadLedger_eq (ctx : TransactionContext) (k : Bytes) (l : Ledger)
    (hget : ctx.getStateErr k = none) :
    (ReadLedger ctx k l).1
      = match l.state k with
        | none => .error (Error.doesNotExist k)
        | some v =>
          match json.Unmarshal v Rating.zero with
          | none => .error Error.decode
          | some r => .ok r := by
  unfold ReadLedger GetState
  rw [hget]
  cases l.state k with
  | none => rfl
  | some v =>
    simp only []
    cases json.Unmarshal v Rating.zero <;> rfl

/-! ## C1 -/

/-- C1: when the key `ownerId + ":" + serviceType` has never been written and the platform's
get and put succeed, `InitLedger(ownerId, serviceType)` succeeds, and a second
`InitLedger(ownerId, serviceType)` on the resulting ledger fails with the already-exists
error. -/
theorem C1_init_twice (ctx1 ctx2 : TransactionContext) (ownerId serviceType : Bytes)
    (l : Ledger)
    (hnew : l.neverWritten (ownerId ++ str ":" ++ serviceType))
    (hget1 : ctx1.getStateErr (ownerId ++ str ":" ++ serviceType) = none)
    (hput1 : ctx1.putStateErr (ownerId ++ str ":" ++ serviceType) = none)
    (hget2 : ctx2.getStateErr (ownerId ++ str ":" ++ serviceType) = none) :
    (InitLedger ctx1 ownerId serviceType l).1 = .ok () ∧
    (InitLedger ctx2 ownerId serviceType (InitLedger ctx1 ownerId serviceType l).2).1
      = .error (Error.alreadyExists (ownerId ++ str ":" ++ serviceType)) := by
  have h1 : InitLedger ctx1 ownerId serviceType l
      = (.ok (), l.put ctx1 (ownerId ++ str ":" ++ serviceType)
          (json.Marshal { LedgerId := ownerId ++ str ":" ++ serviceType, Rate := 3,
                          RatedBy := str "init", OwnerId := ownerId })) := by
    rw [InitLedger_eq, hget1, hnew.1, hput1]
  refine ⟨by rw [h1], ?_⟩
  rw [h1, InitLedger_eq, hget2]
  simp [Ledger.put]

/-- Witness for C1: the first and the second `InitLedger("u1", "delivery")` on the empty
ledger. -/
theorem C1_init_twice_witness :
    (InitLedger (TransactionContext.healthy (str "tx1") ⟨1, 0⟩) (str "u1") (str "delivery")
        Ledger.empty).1 = .ok () ∧
    (InitLedger (TransactionContext.healthy (str "tx2") ⟨2, 0⟩) (str "u1") (str "delivery")
        (InitLedger (TransactionContext.healthy (str "tx1") ⟨1, 0⟩) (str "u1")
          (str "delivery") Ledger.empty).2).1
      = .error (Error.alreadyExists (str "u1" ++ str ":" ++ str "delivery")) :=
  C1_init_twice (TransactionContext.healthy (str "tx1") ⟨1, 0⟩)
    (TransactionContext.healthy (str "tx2") ⟨2, 0⟩) (str "u1") (str "delivery") Ledger.empty
    ⟨rfl, rfl⟩ rfl rfl rfl


theorem InitLedger_ok (ctx : TransactionContext) (o s : Bytes) (l : Ledger)
    (h : (InitLedger ctx o s l).1 = .ok ()) :
    l.state (o ++ str ":" ++ s) = none ∧
    InitLedger ctx o s l
      = (.ok (), l.put ctx (o ++ str ":" ++ s)
          (json.Marshal { LedgerId := o ++ str ":" ++ s, Rate := 3,
                          RatedBy := str "init", OwnerId := o })) := by
  rw [InitLedger_eq] at h ⊢
  cases hg : ctx.getStateErr (o ++ str ":" ++ s) with
  | some msg => rw [hg] at h; simp at h
  | none =>
    cases hs : l.state (o ++ str ":" ++ s) with
    | some v => rw [hg, hs] at h; simp at h
    | none =>
      cases hp : ctx.putStateErr (o ++ str ":" ++ s) with
      | some msg => rw [hg, hs, hp] at h; simp at h
      | none => exact ⟨rfl, rfl⟩

theorem RegisterRate_ok (ctx : TransactionContext) (k : Bytes) (rate : Int) (u : Bytes)
    (l : Ledger) (h : (RegisterRate ctx k rate u l).1 = .ok ()) :
    RegisterRate ctx k rate u l
      = (.ok (), l.put ctx k
          (json.Marshal { LedgerId := k, Rate := rate, RatedBy := u, OwnerId := [] })) := by
  rw [RegisterRate_eq] at h ⊢
  cases hp : ctx.putStateErr k with
  | some msg => rw [hp] at h; simp at h
  | none => rfl

theorem put_state_self (l : Ledger) (ctx : TransactionContext) (k v : Bytes) :
    (l.put ctx k v).state k = some v := by
  simp [Ledger.put]

theorem put_state_other (l : Ledger) (ctx : TransactionContext) (k v k1 : Bytes)
    (h : k1 ≠ k) : (l.put ctx k v).state k1 = l.state k1 := by
  simp [Ledger.put, h]

theorem put_history_self (l : Ledger) (ctx : TransactionContext) (k v : Bytes) :
    (l.put ctx k v).history k
      = l.history k
        ++ [{ TxId := ctx.txId, Value := v, Timestamp := ctx.timestamp, IsDelete := false }] := by
  simp [Ledger.put]

theorem put_history_other (l : Ledger) (ctx : TransactionContext) (k v k1 : Bytes)
    (h : k1 ≠ k) : (l.put ctx k v).history k1 = l.history k1 := by
  simp [Ledger.put, h]

/-! ## C2 -/

/-- C2, as stated, fails: for the owner id consisting of the single byte `0xFF` (not valid
UTF-8) and service type `"x"`, `InitLedger` on the empty ledger succeeds, and `ReadLedger`
of the key then returns an entity whose `LedgerId` and `OwnerId` hold U+FFFD in place of
the byte, not the entity the claim names. -/
theorem C2_counterexample :
    Ledger.empty.state ([byte 0xFF] ++ str ":" ++ str "x") = none ∧
    (InitLedger (TransactionContext.healthy (str "tx1") ⟨1, 0⟩) [byte 0xFF] (str "x")
        Ledger.empty).1 = .ok () ∧
    (ReadLedger (TransactionContext.healthy (str "tx2") ⟨2, 0⟩) ([byte 0xFF] ++ str ":" ++ str "x")
        (InitLedger (TransactionContext.healthy (str "tx1") ⟨1, 0⟩) [byte 0xFF] (str "x")
          Ledger.empty).2).1
      = .ok { LedgerId := [byte 0xEF, byte 0xBF, byte 0xBD] ++ str ":" ++ str "x", Rate := 3,
              RatedBy := str "init", OwnerId := [byte 0xEF, byte 0xBF, byte 0xBD] } ∧
    (ReadLedger (TransactionContext.healthy (str "tx2") ⟨2, 0⟩) ([byte 0xFF] ++ str ":" ++ str "x")
        (InitLedger (TransactionContext.healthy (str "tx1") ⟨1, 0⟩) [byte 0xFF] (str "x")
          Ledger.empty).2).1
      ≠ .ok { LedgerId := [byte 0xFF] ++ str ":" ++ str "x", Rate := 3,
              RatedBy := str "init", OwnerId := [byte 0xFF] } := by
  decide

/-- C2, amended: for every `ownerId` and `serviceType` that are valid UTF-8, after a
successful `InitLedger(ownerId, serviceType)` (so the key was absent), `ReadLedger` of
the key `ownerId + ":" + serviceType` succeeds when the platform's get does and returns
exactly `{LedgerId: ownerId + ":" + serviceType, Rate: 3, RatedBy: "init", OwnerId: ownerId}`. -/
theorem C2_read_after_init (ctx1 ctx2 : TransactionContext) (ownerId serviceType : Bytes)
    (l : Ledger)
    (hvo : utf8.Valid ownerId = true) (hvs : utf8.Valid serviceType = true)
    (hinit : (InitLedger ctx1 ownerId serviceType l).1 = .ok ())
    (hget : ctx2.getStateErr (ownerId ++ str ":" ++ serviceType) = none) :
    (ReadLedger ctx2 (ownerId ++ str ":" ++ serviceType)
        (InitLedger ctx1 ownerId serviceType l).2).1
      = .ok { LedgerId := ownerId ++ str ":" ++ serviceType, Rate := 3,
              RatedBy := str "init", OwnerId := ownerId } := by
  obtain ⟨_, h1⟩ := InitLedger_ok ctx1 ownerId serviceType l hinit
  rw [h1, ReadLedger_eq _ _ _ hget]
  simp only [put_state_self]
  rw [Unmarshal_Marshal _ _ (show isInt64 3 by decide)]
  have hk : utf8.Valid (ownerId ++ str ":" ++ serviceType) = true :=
    utf8.Valid_append _ _ (utf8.Valid_append _ _ hvo (by decide)) hvs
  simp only [json.toValidUTF8_valid _ hk, json.toValidUTF8_valid _ hvo,
    json.toValidUTF8_valid (str "init") (by decide)]

/-- Witness for C2: `InitLedger("u1", "delivery")` on the empty ledger, then
`ReadLedger("u1:delivery")`. -/
theorem C2_read_after_init_witness :
    (ReadLedger (TransactionContext.healthy (str "tx2") ⟨2, 0⟩)
        (str "u1" ++ str ":" ++ str "delivery")
        (InitLedger (TransactionContext.healthy (str "tx1") ⟨1, 0⟩) (str "u1")
          (str "delivery") Ledger.empty).2).1
      = .ok { LedgerId := str "u1" ++ str ":" ++ str "delivery", Rate := 3,
              RatedBy := str "init", OwnerId := str "u1" } :=
  C2_read_after_init (TransactionContext.healthy (str "tx1") ⟨1, 0⟩)
    (TransactionContext.healthy (str "tx2") ⟨2, 0⟩) (str "u1") (str "delivery") Ledger.empty
    (by decide) (by decide) (by decide) rfl

/-! ## C3 -/

/-- C3, as stated, fails: `RegisterRate("k", 5, raterId)` with the rater id consisting of
the single byte `0xFF` succeeds on the empty ledger, and `ReadLedger("k")` then returns
`RatedBy` equal to the encoding of U+FFFD, not the rater id passed. -/
theorem C3_counterexample :
    (RegisterRate (TransactionContext.healthy (str "tx1") ⟨1, 0⟩) (str "k") 5 [byte 0xFF]
        Ledger.empty).1 = .ok () ∧
    (ReadLedger (TransactionContext.healthy (str "tx2") ⟨2, 0⟩) (str "k")
        (RegisterRate (TransactionContext.healthy (str "tx1") ⟨1, 0⟩) (str "k") 5 [byte 0xFF]
          Ledger.empty).2).1
      = .ok { LedgerId := str "k", Rate := 5, RatedBy := [byte 0xEF, byte 0xBF, byte 0xBD],
              OwnerId := [] } ∧
    (ReadLedger (TransactionContext.healthy (str "tx2") ⟨2, 0⟩) (str "k")
        (RegisterRate (TransactionContext.healthy (str "tx1") ⟨1, 0⟩) (str "k") 5 [byte 0xFF]
          Ledger.empty).2).1
      ≠ .ok { LedgerId := str "k", Rate := 5, RatedBy := [byte 0xFF], OwnerId := [] } := by
  decide

/-- C3, amended: for every ledger state (whether or not `ledgerId` is present, whatever
its value and owner), every `ledgerId` and `raterId` that are valid UTF-8 and every rate
of Go's `int` (no range restriction within the type), after a successful
`RegisterRate(ledgerId, rate, raterId)`, `ReadLedger(ledgerId)` returns
`{LedgerId: ledgerId, Rate: rate, RatedBy: raterId, OwnerId: ""}`: the previous value is
overwritten and the owner id is reset to empty. -/
theorem C3_read_after_register (ctx1 ctx2 : TransactionContext) (ledgerId : Bytes)
    (rate : Int) (raterId : Bytes) (l : Ledger)
    (hvk : utf8.Valid ledgerId = true) (hvr : utf8.Valid raterId = true)
    (hrate : isInt64 rate)
    (hreg : (RegisterRate ctx1 ledgerId rate raterId l).1 = .ok ())
    (hget : ctx2.getStateErr ledgerId = none) :
    (ReadLedger ctx2 ledgerId (RegisterRate ctx1 ledgerId rate raterId l).2).1
      = .ok { LedgerId := ledgerId, Rate := rate, RatedBy := raterId, OwnerId := [] } := by
  rw [RegisterRate_ok ctx1 ledgerId rate raterId l hreg, ReadLedger_eq _ _ _ hget]
  simp only [put_state_self]
  rw [Unmarshal_Marshal _ _ hrate]
  simp only [json.toValidUTF8_valid _ hvk, json.toValidUTF8_valid _ hvr,
    json.toValidUTF8_valid [] (by decide)]

/-- Witness for C3: `InitLedger("u1", "delivery")`, then
`RegisterRate("u1:delivery", 5, "u2")`, then `ReadLedger("u1:delivery")`: the rate is 5,
the rater `"u2"` and the owner id, `"u1"` before, is empty. -/
theorem C3_read_after_register_witness :
    (ReadLedger (TransactionContext.healthy (str "tx3") ⟨3, 0⟩) (str "u1:delivery")
        (RegisterRate (TransactionContext.healthy (str "tx2") ⟨2, 0⟩) (str "u1:delivery") 5
          (str "u2")
          (InitLedger (TransactionContext.healthy (str "tx1") ⟨1, 0⟩) (str "u1")
            (str "delivery") Ledger.empty).2).2).1
      = .ok { LedgerId := str "u1:delivery", Rate := 5, RatedBy := str "u2", OwnerId := [] } :=
  C3_read_after_register (TransactionContext.healthy (str "tx2") ⟨2, 0⟩)
    (TransactionContext.healthy (str "tx3") ⟨3, 0⟩) (str "u1:delivery") 5 (str "u2")
    (InitLedger (TransactionContext.healthy (str "tx1") ⟨1, 0⟩) (str "u1") (str "delivery")
      Ledger.empty).2
    (by decide) (by decide) (by decide) (by decide) rfl

/-! ## C4 -/

/-- C4: with a working platform get, `LedgerExists(k)` returns false for a key that has
never been written, and returns true in the state right after a successful write to `k`
by this service: an `InitLedger` composing `k`, or `RegisterRate(k, _, _)`. -/
theorem C4_ledger_exists (ctx ctxw : TransactionContext) (k ownerId serviceType : Bytes)
    (rate : Int) (raterId : Bytes) (l : Ledger)
    (hget : ctx.getStateErr k = none) :
    (l.neverWritten k → (LedgerExists ctx k l).1 = .ok false) ∧
    (k = ownerId ++ str ":" ++ serviceType →
      (InitLedger ctxw ownerId serviceType l).1 = .ok () →
      (LedgerExists ctx k (InitLedger ctxw ownerId serviceType l).2).1 = .ok true) ∧
    ((RegisterRate ctxw k rate raterId l).1 = .ok () →
      (LedgerExists ctx k (RegisterRate ctxw k rate raterId l).2).1 = .ok true) := by
  refine ⟨?_, ?_, ?_⟩
  · intro hnew
    rw [LedgerExists_eq _ _ _ hget, hnew.1]
    rfl
  · intro hk hinit
    subst hk
    rw [(InitLedger_ok ctxw ownerId serviceType l hinit).2, LedgerExists_eq _ _ _ hget]
    simp only [put_state_self]
    rfl
  · intro hreg
    rw [RegisterRate_ok ctxw k rate raterId l hreg, LedgerExists_eq _ _ _ hget]
    simp only [put_state_self]
    rfl

/-- Witness for C4: on the empty ledger `LedgerExists("u1:delivery")` is false; it is true
after `InitLedger("u1", "delivery")` and after `RegisterRate("u1:delivery", 5, "u2")`. -/
theorem C4_ledger_exists_witness :
    (LedgerExists (TransactionContext.healthy (str "tx2") ⟨2, 0⟩) (str "u1:delivery")
        Ledger.empty).1 = .ok false ∧
    (LedgerExists (TransactionContext.healthy (str "tx2") ⟨2, 0⟩) (str "u1:delivery")
        (InitLedger (TransactionContext.healthy (str "tx1") ⟨1, 0⟩) (str "u1")
          (str "delivery") Ledger.empty).2).1 = .ok true ∧
    (LedgerExists (TransactionContext.healthy (str "tx2") ⟨2, 0⟩) (str "u1:delivery")
        (RegisterRate (TransactionContext.healthy (str "tx1") ⟨1, 0⟩) (str "u1:delivery") 5
          (str "u2") Ledger.empty).2).1 = .ok true :=
  have h := C4_ledger_exists (TransactionContext.healthy (str "tx2") ⟨2, 0⟩)
    (TransactionContext.healthy (str "tx1") ⟨1, 0⟩) (str "u1:delivery") (str "u1")
    (str "delivery") 5 (str "u2") Ledger.empty rfl
  ⟨h.1 ⟨rfl, rfl⟩, h.2.1 (by decide) (by decide), h.2.2 (by decide)⟩


/-! ## The history feed -/

theorem enumFrom_map_ok :
    ∀ (kms : List KeyModification) (n : Nat),
      (kms.enumFrom n).map (fun p => (Except.ok p.2 : Except String KeyModification))
        = kms.map .ok := by
  intro kms
  induction kms with
  | nil => intro n; rfl
  | cons km kms ih =>
    intro n
    simp only [List.enumFrom, List.map, ih]

theorem GetAllRatings_eq (ctx : TransactionContext) (k : Bytes) (l : Ledger)
    (hopen : ctx.getHistoryErr k = none) (hnext : ∀ i, ctx.nextErr k i = none) :
    (GetAllRatings ctx k l).1 = historyLoop k ((l.history k).map .ok) [] := by
  unfold GetAllRatings GetHistoryForKey
  rw [hopen]
  simp only [List.enum, hnext]
  rw [enumFrom_map_ok]

theorem historyLoop_ok (ledgerId : Bytes) :
    ∀ (kms : List KeyModification) (acc : List HistoryQueryResult),
      (∀ km ∈ kms, km.Value ≠ [] → json.Unmarshal km.Value Rating.zero ≠ none) →
      (∀ km ∈ kms, ∃ t, ptypesTimestamp km.Timestamp = .ok t) →
      ∃ results, historyLoop ledgerId (kms.map .ok) acc = .ok (acc ++ results) ∧
        List.Forall₂ (IsSnapshotOf ledgerId) kms results := by
  intro kms
  induction kms with
  | nil =>
    intro acc _ _
    exact ⟨[], by simp [historyLoop], List.Forall₂.nil⟩
  | cons km kms ih =>
    intro acc hdec hts
    obtain ⟨t, ht⟩ := hts km (List.mem_cons_self _ _)
    have hdec' := fun x hx => hdec x (List.mem_cons_of_mem _ hx)
    have hts' := fun x hx => hts x (List.mem_cons_of_mem _ hx)
    by_cases hv : km.Value = []
    · obtain ⟨rs, hrs, hall⟩ := ih
        (acc ++ [{ TxId := km.TxId, Timestamp := t,
                   Record := { LedgerId := ledgerId, Rate := 0, RatedBy := [], OwnerId := [] },
                   IsDelete := km.IsDelete }]) hdec' hts'
      refine ⟨{ TxId := km.TxId, Timestamp := t,
                Record := { LedgerId := ledgerId, Rate := 0, RatedBy := [], OwnerId := [] },
                IsDelete := km.IsDelete } :: rs, ?_,
        List.Forall₂.cons ⟨rfl, rfl, ht, fun h => absurd hv h, fun _ => rfl⟩ hall⟩
      simp only [List.map, historyLoop, hv, List.length_nil, gt_iff_lt, lt_self_iff_false,
        if_false, ht]
      rw [hrs]
      simp
    · cases hu : json.Unmarshal km.Value Rating.zero with
      | none => exact absurd hu (hdec km (List.mem_cons_self _ _) hv)
      | some rating =>
        obtain ⟨rs, hrs, hall⟩ := ih
          (acc ++ [{ TxId := km.TxId, Timestamp := t, Record := rating,
                     IsDelete := km.IsDelete }]) hdec' hts'
        refine ⟨{ TxId := km.TxId, Timestamp := t, Record := rating,
                  IsDelete := km.IsDelete } :: rs, ?_,
          List.Forall₂.cons ⟨rfl, rfl, ht, fun _ => hu, fun h => absurd h hv⟩ hall⟩
        have hlen : km.Value.length > 0 := List.length_pos.mpr hv
        simp only [List.map, historyLoop, hlen, if_true, hu, ht]
        rw [hrs]
        simp

/-! ## C5 -/

theorem Call_run_ok (c : Call) (l : Ledger) (h : (c.run l).1 = .ok ()) :
    c.run l = (.ok (), l.put c.ctx c.key (json.Marshal c.entity)) := by
  cases c with
  | init ctx o s =>
    simp only [Call.run, Call.ctx, Call.key, Call.entity, stringsJoin_pair] at h ⊢
    exact (InitLedger_ok ctx o s l h).2
  | register ctx k rate u =>
    simp only [Call.run, Call.ctx, Call.key, Call.entity] at h ⊢
    exact RegisterRate_ok ctx k rate u l h

theorem runCalls_history (k : Bytes) :
    ∀ (calls : List Call) (l : Ledger), (∀ c ∈ calls, c.key = k) → allSucceed calls l →
      (runCalls calls l).history k = l.history k ++ calls.map Call.modification := by
  intro calls
  induction calls with
  | nil => intro l _ _; simp [runCalls]
  | cons c cs ih =>
    intro l hkey hok
    have hc := Call_run_ok c l hok.1
    have hk : c.key = k := hkey c (List.mem_cons_self _ _)
    rw [runCalls, ih (c.run l).2 (fun x hx => hkey x (List.mem_cons_of_mem _ hx)) hok.2, hc]
    simp only [hk, put_history_self, List.map, List.append_assoc, List.singleton_append,
      Call.modification]

theorem Marshal_ne_nil (r : Rating) : json.Marshal r ≠ [] := by
  simp [json.Marshal]

theorem entity_roundtrip (c : Call) (hw : c.wellTyped) (hv : c.validText) :
    json.Unmarshal (json.Marshal c.entity) Rating.zero = some c.entity := by
  cases c with
  | init ctx o s =>
    simp only [Call.entity, stringsJoin_pair]
    rw [Unmarshal_Marshal _ _ (show isInt64 3 by decide)]
    have hk : utf8.Valid (o ++ str ":" ++ s) = true :=
      utf8.Valid_append _ _ (utf8.Valid_append _ _ hv.1 (by decide)) hv.2
    simp only [json.toValidUTF8_valid _ hk, json.toValidUTF8_valid _ hv.1,
      json.toValidUTF8_valid (str "init") (by decide)]
  | register ctx k rate u =>
    simp only [Call.entity]
    rw [Unmarshal_Marshal _ _ (show isInt64 rate from hw)]
    simp only [json.toValidUTF8_valid _ hv.1, json.toValidUTF8_valid _ hv.2,
      json.toValidUTF8_valid [] (by decide)]

theorem forall₂_of_map {α β γ : Type} (f : α → β) (R : β → γ → Prop) (S : α → γ → Prop) :
    ∀ (xs : List α) (rs : List γ), List.Forall₂ R (xs.map f) rs →
      (∀ x ∈ xs, ∀ r, R (f x) r → S x r) → List.Forall₂ S xs rs := by
  intro xs
  induction xs with
  | nil =>
    intro rs h _
    cases h
    exact List.Forall₂.nil
  | cons x xs ih =>
    intro rs h hS
    cases h with
    | cons hr hrest =>
      exact List.Forall₂.cons (hS x (List.mem_cons_self _ _) _ hr)
        (ih _ hrest (fun y hy => hS y (List.mem_cons_of_mem _ hy)))

/-- C5, as stated, fails: after the single successful write
`RegisterRate("k", 5, raterId)` with the rater id consisting of the byte `0xFF`, the one
entry `GetAllRatings("k")` returns has `RatedBy` equal to the encoding of U+FFFD, not to the
rater id written at that step. -/
theorem C5_counterexample :
    (Ledger.empty.state (str "k") = none ∧ Ledger.empty.history (str "k") = []) ∧
    (RegisterRate (TransactionContext.healthy (str "tx1") ⟨1, 0⟩) (str "k") 5 [byte 0xFF]
        Ledger.empty).1 = .ok () ∧
    (GetAllRatings (TransactionContext.healthy (str "tx2") ⟨2, 0⟩) (str "k")
        (RegisterRate (TransactionContext.healthy (str "tx1") ⟨1, 0⟩) (str "k") 5 [byte 0xFF]
          Ledger.empty).2).1
      = .ok [{ Record := { LedgerId := str "k", Rate := 5,
                           RatedBy := [byte 0xEF, byte 0xBF, byte 0xBD], OwnerId := [] },
               TxId := str "tx1", Timestamp := ⟨1, 0⟩, IsDelete := false }] ∧
    [byte 0xEF, byte 0xBF, byte 0xBD] ≠ [byte 0xFF] := by
  decide

/-- C5, amended: for every key `k` that starts never-written and every sequence of N
successful writes to `k` through this service (an `InitLedger` followed by `RegisterRate`
calls, or `RegisterRate` calls alone) whose string arguments are valid UTF-8 and whose rates
are Go `int`s, each committed by the platform with a timestamp that converts,
`GetAllRatings(k)` returns exactly N entries, in feed order, whose i-th entry has as
`Record` the entity written at step i (its `Rate`, `RatedBy`, `OwnerId` and `LedgerId`) and
`IsDelete = false`. -/
theorem C5_history_of_writes (ctx : TransactionContext) (k : Bytes) (calls : List Call)
    (l : Ledger)
    (hnew : l.neverWritten k) (hkey : ∀ c ∈ calls, c.key = k) (hok : allSucceed calls l)
    (htyped : ∀ c ∈ calls, c.wellTyped) (htext : ∀ c ∈ calls, c.validText)
    (htime : ∀ c ∈ calls, ∃ t, ptypesTimestamp c.ctx.timestamp = .ok t)
    (hopen : ctx.getHistoryErr k = none) (hnext : ∀ i, ctx.nextErr k i = none) :
    ∃ results, (GetAllRatings ctx k (runCalls calls l)).1 = .ok results ∧
      results.length = calls.length ∧ List.Forall₂ RecordsCall calls results := by
  have hhist : (runCalls calls l).history k = calls.map Call.modification := by
    rw [runCalls_history k calls l hkey hok, hnew.2, List.nil_append]
  obtain ⟨rs, hrs, hall⟩ := historyLoop_ok k (calls.map Call.modification) []
    (by
      intro km hkm _
      obtain ⟨c, hc, rfl⟩ := List.mem_map.mp hkm
      simp only [Call.modification]
      rw [entity_roundtrip c (htyped c hc) (htext c hc)]
      simp)
    (by
      intro km hkm
      obtain ⟨c, hc, rfl⟩ := List.mem_map.mp hkm
      exact htime c hc)
  have hrec : List.Forall₂ RecordsCall calls rs := by
    refine forall₂_of_map Call.modification _ _ calls rs hall ?_
    intro c hc r hr
    obtain ⟨htx, hdel, hts, hval, _⟩ := hr
    have hu := hval (Marshal_ne_nil c.entity)
    simp only [Call.modification] at hu htx hdel hts
    rw [entity_roundtrip c (htyped c hc) (htext c hc)] at hu
    exact ⟨(Option.some.inj hu).symm, hdel, htx, hts⟩
  refine ⟨rs, ?_, ?_, hrec⟩
  · rw [GetAllRatings_eq ctx k _ hopen hnext, hhist, hrs]
    rfl
  · exact hrec.length_eq.symm

/-- Witness for C5: `InitLedger("u1", "delivery")` then
`RegisterRate("u1:delivery", 5, "u2")` on the empty ledger: `GetAllRatings("u1:delivery")`
has two entries, for the entities `{rate 3, ratedBy "init", ownerId "u1"}` and
`{rate 5, ratedBy "u2"}`. -/
theorem C5_history_of_writes_witness :
    ∃ results,
      (GetAllRatings (TransactionContext.healthy (str "tx3") ⟨3, 0⟩) (str "u1:delivery")
        (runCalls
          [Call.init (TransactionContext.healthy (str "tx1") ⟨1, 0⟩) (str "u1") (str "delivery"),
           Call.register (TransactionContext.healthy (str "tx2") ⟨2, 0⟩) (str "u1:delivery") 5
             (str "u2")]
          Ledger.empty)).1 = .ok results ∧
      results.length = 2 ∧
      List.Forall₂ RecordsCall
        [Call.init (TransactionContext.healthy (str "tx1") ⟨1, 0⟩) (str "u1") (str "delivery"),
         Call.register (TransactionContext.healthy (str "tx2") ⟨2, 0⟩) (str "u1:delivery") 5
           (str "u2")]
        results :=
  C5_history_of_writes (TransactionContext.healthy (str "tx3") ⟨3, 0⟩) (str "u1:delivery")
    [Call.init (TransactionContext.healthy (str "tx1") ⟨1, 0⟩) (str "u1") (str "delivery"),
     Call.register (TransactionContext.healthy (str "tx2") ⟨2, 0⟩) (str "u1:delivery") 5
       (str "u2")]
    Ledger.empty ⟨rfl, rfl⟩
    (by
      intro c hc
      simp only [List.mem_cons, List.mem_singleton, List.not_mem_nil, or_false] at hc
      rcases hc with rfl | rfl
      · decide
      · rfl)
    ⟨by decide, by decide, trivial⟩
    (by
      intro c hc
      simp only [List.mem_cons, List.mem_singleton, List.not_mem_nil, or_false] at hc
      rcases hc with rfl | rfl
      · trivial
      · exact (by decide : isInt64 5))
    (by
      intro c hc
      simp only [List.mem_cons, List.mem_singleton, List.not_mem_nil, or_false] at hc
      rcases hc with rfl | rfl
      · exact ⟨by decide, by decide⟩
      · exact ⟨by decide, by decide⟩)
    (by
      intro c hc
      simp only [List.mem_cons, List.mem_singleton, List.not_mem_nil, or_false] at hc
      rcases hc with rfl | rfl
      · exact ⟨⟨1, 0⟩, by decide⟩
      · exact ⟨⟨2, 0⟩, by decide⟩)
    rfl (fun _ => rfl)

/-! ## C6 -/

/-- C6: for every `ledgerId` and every raw history feed that the platform opens and yields
without error, whose non-empty payloads all decode and whose timestamps convert,
`GetAllRatings(ledgerId)` returns a sequence of the same length as the feed and in the
same order (an empty feed gives an empty result), whose i-th result carries the `TxId`,
`Timestamp` and `IsDelete` of the i-th feed entry, with the decoded payload as `Record`
when the payload is non-empty and otherwise the stub
`{LedgerId: ledgerId, Rate: 0, RatedBy: "", OwnerId: ""}`. -/
theorem C6_history_reconstruction (ctx : TransactionContext) (ledgerId : Bytes) (l : Ledger)
    (hopen : ctx.getHistoryErr ledgerId = none)
    (hnext : ∀ i, ctx.nextErr ledgerId i = none)
    (hdec : ∀ km ∈ l.history ledgerId,
      km.Value ≠ [] → json.Unmarshal km.Value Rating.zero ≠ none)
    (hts : ∀ km ∈ l.history ledgerId, ∃ t, ptypesTimestamp km.Timestamp = .ok t) :
    ∃ results, (GetAllRatings ctx ledgerId l).1 = .ok results ∧
      results.length = (l.history ledgerId).length ∧
      List.Forall₂ (IsSnapshotOf ledgerId) (l.history ledgerId) results ∧
      (l.history ledgerId = [] → results = []) := by
  obtain ⟨rs, hrs, hall⟩ := historyLoop_ok ledgerId (l.history ledgerId) [] hdec hts
  refine ⟨rs, ?_, hall.length_eq.symm, hall, ?_⟩
  · rw [GetAllRatings_eq ctx ledgerId l hopen hnext, hrs]
    rfl
  · intro he
    rw [he] at hall
    cases hall
    rfl

/-- Witness for C6: the feed of `"u1:delivery"` after `InitLedger("u1", "delivery")` and an
external deletion: one written payload and one tombstone. -/
theorem C6_history_reconstruction_witness :
    ∃ results,
      (GetAllRatings (TransactionContext.healthy (str "tx3") ⟨3, 0⟩) (str "u1:delivery")
        ((InitLedger (TransactionContext.healthy (str "tx1") ⟨1, 0⟩) (str "u1")
          (str "delivery") Ledger.empty).2.delete
            (TransactionContext.healthy (str "tx2") ⟨2, 0⟩) (str "u1:delivery"))).1
        = .ok results ∧
      results.length
        = (((InitLedger (TransactionContext.healthy (str "tx1") ⟨1, 0⟩) (str "u1")
          (str "delivery") Ledger.empty).2.delete
            (TransactionContext.healthy (str "tx2") ⟨2, 0⟩) (str "u1:delivery")).history
              (str "u1:delivery")).length ∧
      List.Forall₂ (IsSnapshotOf (str "u1:delivery"))
        (((InitLedger (TransactionContext.healthy (str "tx1") ⟨1, 0⟩) (str "u1")
          (str "delivery") Ledger.empty).2.delete
            (TransactionContext.healthy (str "tx2") ⟨2, 0⟩) (str "u1:delivery")).history
              (str "u1:delivery")) results ∧
      (((InitLedger (TransactionContext.healthy (str "tx1") ⟨1, 0⟩) (str "u1")
          (str "delivery") Ledger.empty).2.delete
            (TransactionContext.healthy (str "tx2") ⟨2, 0⟩) (str "u1:delivery")).history
              (str "u1:delivery") = [] → results = []) :=
  C6_history_reconstruction (TransactionContext.healthy (str "tx3") ⟨3, 0⟩)
    (str "u1:delivery")
    ((InitLedger (TransactionContext.healthy (str "tx1") ⟨1, 0⟩) (str "u1")
      (str "delivery") Ledger.empty).2.delete
        (TransactionContext.healthy (str "tx2") ⟨2, 0⟩) (str "u1:delivery"))
    rfl (fun _ => rfl) (by decide)
    (by
      have h : ((InitLedger (TransactionContext.healthy (str "tx1") ⟨1, 0⟩) (str "u1")
          (str "delivery") Ledger.empty).2.delete
            (TransactionContext.healthy (str "tx2") ⟨2, 0⟩) (str "u1:delivery")).history
              (str "u1:delivery")
          = [{ TxId := str "tx1",
               Value := json.Marshal { LedgerId := str "u1:delivery", Rate := 3,
                                       RatedBy := str "init", OwnerId := str "u1" },
               Timestamp := some ⟨1, 0⟩, IsDelete := false },
             { TxId := str "tx2", Value := [], Timestamp := some ⟨2, 0⟩, IsDelete := true }] := by
        decide
      rw [h]
      intro km hkm
      simp only [List.mem_cons, List.mem_singleton, List.not_mem_nil, or_false] at hkm
      rcases hkm with rfl | rfl
      · exact ⟨⟨1, 0⟩, by decide⟩
      · exact ⟨⟨2, 0⟩, by decide⟩)


/-! ## C7 -/

theorem RegisterRate_snd (ctx : TransactionContext) (k : Bytes) (rate : Int) (u : Bytes)
    (l : Ledger) :
    (RegisterRate ctx k rate u l).2 = l ∨
    RegisterRate ctx k rate u l
      = (.ok (), l.put ctx k
          (json.Marshal { LedgerId := k, Rate := rate, RatedBy := u, OwnerId := [] })) := by
  rw [RegisterRate_eq]
  cases ctx.putStateErr k with
  | some msg => exact Or.inl rfl
  | none => exact Or.inr rfl

theorem InitLedger_snd (ctx : TransactionContext) (o s : Bytes) (l : Ledger) :
    (InitLedger ctx o s l).2 = l ∨
    InitLedger ctx o s l
      = (.ok (), l.put ctx (o ++ str ":" ++ s)
          (json.Marshal { LedgerId := o ++ str ":" ++ s, Rate := 3,
                          RatedBy := str "init", OwnerId := o })) := by
  rw [InitLedger_eq]
  cases ctx.getStateErr (o ++ str ":" ++ s) with
  | some msg => exact Or.inl rfl
  | none =>
    cases l.state (o ++ str ":" ++ s) with
    | some v => exact Or.inl rfl
    | none =>
      cases ctx.putStateErr (o ++ str ":" ++ s) with
      | some msg => exact Or.inl rfl
      | none => exact Or.inr rfl

/-- C7, as stated, fails: the key `"k"` is absent from the empty ledger, and
`RegisterRate("k", 5, "u2")`, which is not the init operation, succeeds and leads to a state
in which `LedgerExists("k")` is true. -/
theorem C7_counterexample :
    Ledger.empty.state (str "k") = none ∧
    (RegisterRate (TransactionContext.healthy (str "tx1") ⟨1, 0⟩) (str "k") 5 (str "u2")
        Ledger.empty).1 = .ok () ∧
    (LedgerExists (TransactionContext.healthy (str "tx2") ⟨2, 0⟩) (str "k")
        (RegisterRate (TransactionContext.healthy (str "tx1") ⟨1, 0⟩) (str "k") 5 (str "u2")
          Ledger.empty).2).1 = .ok true := by
  decide

/-- C7, amended: an entity is created only by a successful write to its key.  For every
ledger state and every key `k` absent from it: `ReadLedger`, `LedgerExists` and
`GetAllRatings` (on any key) leave `k` absent; so does a `RegisterRate` or `InitLedger`
that addresses another key, and one that fails; and a successful `RegisterRate(k, _, _)`,
which makes no existence check, leads to a state in which `k` is present, as a successful
`InitLedger` composing `k` does. -/
theorem C7_creation_only_by_write (ctx : TransactionContext) (k : Bytes) (l : Ledger)
    (habs : l.state k = none) :
    (∀ k1, (ReadLedger ctx k1 l).2.state k = none ∧ (LedgerExists ctx k1 l).2.state k = none ∧
      (GetAllRatings ctx k1 l).2.state k = none) ∧
    (∀ k1 rate u, k1 ≠ k → (RegisterRate ctx k1 rate u l).2.state k = none) ∧
    (∀ o s, o ++ str ":" ++ s ≠ k → (InitLedger ctx o s l).2.state k = none) ∧
    (∀ k1 rate u, (RegisterRate ctx k1 rate u l).1 ≠ .ok () →
      (RegisterRate ctx k1 rate u l).2.state k = none) ∧
    (∀ o s, (InitLedger ctx o s l).1 ≠ .ok () → (InitLedger ctx o s l).2.state k = none) ∧
    (∀ rate u, (RegisterRate ctx k rate u l).1 = .ok () →
      (RegisterRate ctx k rate u l).2.state k ≠ none) ∧
    (∀ o s, o ++ str ":" ++ s = k → (InitLedger ctx o s l).1 = .ok () →
      (InitLedger ctx o s l).2.state k ≠ none) := by
  refine ⟨?_, ?_, ?_, ?_, ?_, ?_, ?_⟩
  · intro k1
    rw [ReadLedger_snd, LedgerExists_snd, GetAllRatings_snd]
    exact ⟨habs, habs, habs⟩
  · intro k1 rate u hne
    rcases RegisterRate_snd ctx k1 rate u l with h | h
    · rw [h]; exact habs
    · rw [h, put_state_other _ _ _ _ _ (Ne.symm hne)]; exact habs
  · intro o s hne
    rcases InitLedger_snd ctx o s l with h | h
    · rw [h]; exact habs
    · rw [h, put_state_other _ _ _ _ _ (Ne.symm hne)]; exact habs
  · intro k1 rate u hfail
    rcases RegisterRate_snd ctx k1 rate u l with h | h
    · rw [h]; exact habs
    · exact absurd (by rw [h]) hfail
  · intro o s hfail
    rcases InitLedger_snd ctx o s l with h | h
    · rw [h]; exact habs
    · exact absurd (by rw [h]) hfail
  · intro rate u hok
    rw [RegisterRate_ok ctx k rate u l hok, put_state_self]
    simp
  · intro o s hk hok
    subst hk
    rw [(InitLedger_ok ctx o s l hok).2, put_state_self]
    simp

/-- Witness for C7: on the empty ledger, where `"k"` is absent. -/
theorem C7_creation_only_by_write_witness :
    (RegisterRate (TransactionContext.healthy (str "tx1") ⟨1, 0⟩) (str "other") 5 (str "u2")
        Ledger.empty).2.state (str "k") = none ∧
    (RegisterRate (TransactionContext.healthy (str "tx1") ⟨1, 0⟩) (str "k") 5 (str "u2")
        Ledger.empty).2.state (str "k") ≠ none :=
  have h := C7_creation_only_by_write (TransactionContext.healthy (str "tx1") ⟨1, 0⟩) (str "k")
    Ledger.empty rfl
  ⟨h.2.1 (str "other") 5 (str "u2") (by decide), h.2.2.2.2.2.1 5 (str "u2") (by decide)⟩

/-! ## C8 -/

theorem append_sep_inj (c : UInt8) :
    ∀ (o1 s1 o2 s2 : Bytes), c ∉ o1 → c ∉ o2 → o1 ++ c :: s1 = o2 ++ c :: s2 →
      o1 = o2 ∧ s1 = s2 := by
  intro o1
  induction o1 with
  | nil =>
    intro s1 o2 s2 _ h2 h
    cases o2 with
    | nil => simpa using h
    | cons x o2 =>
      simp only [List.nil_append, List.cons_append, List.cons.injEq] at h
      exact absurd (by rw [h.1]; exact List.mem_cons_self _ _) h2
  | cons y o1 ih =>
    intro s1 o2 s2 h1 h2 h
    cases o2 with
    | nil =>
      simp only [List.nil_append, List.cons_append, List.cons.injEq] at h
      exact absurd (by rw [← h.1]; exact List.mem_cons_self _ _) h1
    | cons x o2 =>
      simp only [List.cons_append, List.cons.injEq] at h
      obtain ⟨ho, hs⟩ := ih s1 o2 s2 (fun hm => h1 (List.mem_cons_of_mem _ hm))
        (fun hm => h2 (List.mem_cons_of_mem _ hm)) h.2
      exact ⟨by rw [h.1, ho], hs⟩

/-- C8, as stated, fails: the pairs `("a:b", "c")` and `("a", "b:c")` differ and compose the
same key `"a:b:c"`, and after `InitLedger("a:b", "c")` on the empty ledger
`InitLedger("a", "b:c")` fails with the already-exists error. -/
theorem C8_counterexample :
    stringsJoin [str "a:b", str "c"] (str ":") = stringsJoin [str "a", str "b:c"] (str ":") ∧
    (str "a:b", str "c") ≠ (str "a", str "b:c") ∧
    (InitLedger (TransactionContext.healthy (str "tx1") ⟨1, 0⟩) (str "a:b") (str "c")
        Ledger.empty).1 = .ok () ∧
    (InitLedger (TransactionContext.healthy (str "tx2") ⟨2, 0⟩) (str "a") (str "b:c")
        (InitLedger (TransactionContext.healthy (str "tx1") ⟨1, 0⟩) (str "a:b") (str "c")
          Ledger.empty).2).1 = .error (Error.alreadyExists (str "a:b:c")) := by
  decide

theorem append_sep_inj_right (c : UInt8) (o1 s1 o2 s2 : Bytes) (h1 : c ∉ s1) (h2 : c ∉ s2)
    (h : o1 ++ c :: s1 = o2 ++ c :: s2) : o1 = o2 ∧ s1 = s2 := by
  have hr : s1.reverse ++ c :: o1.reverse = s2.reverse ++ c :: o2.reverse := by
    have := congrArg List.reverse h
    simpa using this
  obtain ⟨hs, ho⟩ := append_sep_inj c s1.reverse o1.reverse s2.reverse o2.reverse
    (by simpa using h1) (by simpa using h2) hr
  exact ⟨List.reverse_injective ho, List.reverse_injective hs⟩

/-- C8, amended: when neither owner id, or neither service type, contains the separator
byte `:`, the key `ownerId + ":" + serviceType` that `InitLedger` forms identifies the
pair: for such `(o1, s1)` and `(o2, s2)`, equal keys give `o1 = o2` and `s1 = s2`, so an
`InitLedger` for one pair whose key was absent does not fail with already-exists because a
different pair was initialised before it. -/
theorem C8_key_identifies_pair (o1 s1 o2 s2 : Bytes)
    (hsep : (byte 0x3A ∉ o1 ∧ byte 0x3A ∉ o2) ∨ (byte 0x3A ∉ s1 ∧ byte 0x3A ∉ s2)) :
    (stringsJoin [o1, s1] (str ":") = stringsJoin [o2, s2] (str ":") → o1 = o2 ∧ s1 = s2) ∧
    (∀ (ctx1 ctx2 : TransactionContext) (l : Ledger), (o1, s1) ≠ (o2, s2) →
      l.state (o2 ++ str ":" ++ s2) = none →
      (InitLedger ctx1 o1 s1 l).1 = .ok () →
      (InitLedger ctx2 o2 s2 (InitLedger ctx1 o1 s1 l).2).1
        ≠ .error (Error.alreadyExists (o2 ++ str ":" ++ s2))) := by
  have hcolon : str ":" = [byte 0x3A] := by decide
  have hinj : stringsJoin [o1, s1] (str ":") = stringsJoin [o2, s2] (str ":") →
      o1 = o2 ∧ s1 = s2 := by
    intro h
    rw [stringsJoin_pair, stringsJoin_pair, hcolon] at h
    simp only [List.append_assoc, List.singleton_append] at h
    rcases hsep with ⟨h1, h2⟩ | ⟨h1, h2⟩
    · exact append_sep_inj _ o1 s1 o2 s2 h1 h2 h
    · exact append_sep_inj_right _ o1 s1 o2 s2 h1 h2 h
  refine ⟨hinj, ?_⟩
  intro ctx1 ctx2 l hne habs hok
  have hkey : o2 ++ str ":" ++ s2 ≠ o1 ++ str ":" ++ s1 := by
    intro h
    have := hinj (by rw [stringsJoin_pair, stringsJoin_pair, h])
    exact hne (by rw [this.1, this.2])
  rw [(InitLedger_ok ctx1 o1 s1 l hok).2, InitLedger_eq]
  simp only [put_state_other _ _ _ _ _ hkey, habs]
  cases ctx2.getStateErr (o2 ++ str ":" ++ s2) with
  | some msg => simp
  | none =>
    cases ctx2.putStateErr (o2 ++ str ":" ++ s2) with
    | some msg => simp
    | none => simp

/-- Witness for C8: the pairs `("u1", "delivery")` and `("u2", "delivery")`: the keys
differ, and `InitLedger("u2", "delivery")` after `InitLedger("u1", "delivery")` does not
fail with the already-exists error. -/
theorem C8_key_identifies_pair_witness :
    (stringsJoin [str "u1", str "delivery"] (str ":")
        = stringsJoin [str "u1", str "delivery"] (str ":") →
      str "u1" = str "u1" ∧ str "delivery" = str "delivery") ∧
    (InitLedger (TransactionContext.healthy (str "tx2") ⟨2, 0⟩) (str "u2") (str "delivery")
        (InitLedger (TransactionContext.healthy (str "tx1") ⟨1, 0⟩) (str "u1") (str "delivery")
          Ledger.empty).2).1
      ≠ .error (Error.alreadyExists (str "u2" ++ str ":" ++ str "delivery")) :=
  ⟨(C8_key_identifies_pair (str "u1") (str "delivery") (str "u1") (str "delivery")
      (Or.inl ⟨by decide, by decide⟩)).1,
   (C8_key_identifies_pair (str "u1") (str "delivery") (str "u2") (str "delivery")
      (Or.inl ⟨by decide, by decide⟩)).2
      (TransactionContext.healthy (str "tx1") ⟨1, 0⟩)
      (TransactionContext.healthy (str "tx2") ⟨2, 0⟩) Ledger.empty (by decide) rfl (by decide)⟩


/-! ## C9 -/

theorem Inv_empty : Ledger.empty.Inv := by
  intro k
  refine ⟨fun v h => ?_, fun km h => ?_⟩
  · simp [Ledger.empty] at h
  · simp [Ledger.empty] at h

theorem Inv_put (l : Ledger) (ctx : TransactionContext) (key v : Bytes) (hl : l.Inv)
    (hv : WrittenFor key v) : (l.put ctx key v).Inv := by
  intro k
  by_cases hk : k = key
  · subst hk
    refine ⟨fun w h => ?_, fun km h => ?_⟩
    · rw [put_state_self] at h
      cases h
      exact hv
    · rw [put_history_self] at h
      rcases List.mem_append.mp h with h | h
      · exact (hl k).2 km h
      · rw [List.mem_singleton] at h
        subst h
        exact hv
  · rw [put_state_other _ _ _ _ _ hk, put_history_other _ _ _ _ _ hk]
    exact hl k

theorem Call_run_snd (c : Call) (l : Ledger) :
    (c.run l).2 = l ∨ c.run l = (.ok (), l.put c.ctx c.key (json.Marshal c.entity)) := by
  cases c with
  | init ctx o s =>
    simp only [Call.run, Call.ctx, Call.key, Call.entity, stringsJoin_pair]
    exact InitLedger_snd ctx o s l
  | register ctx k rate u =>
    simp only [Call.run, Call.ctx, Call.key, Call.entity]
    exact RegisterRate_snd ctx k rate u l

theorem Call_entity_written (c : Call) (hw : c.wellTyped) :
    WrittenFor c.key (json.Marshal c.entity) := by
  cases c with
  | init ctx o s => exact ⟨_, rfl, rfl, (by decide : isInt64 3)⟩
  | register ctx k rate u => exact ⟨_, rfl, rfl, hw⟩

theorem Inv_runCalls :
    ∀ (calls : List Call) (l : Ledger), l.Inv → (∀ c ∈ calls, c.wellTyped) →
      (runCalls calls l).Inv := by
  intro calls
  induction calls with
  | nil => intro l hl _; exact hl
  | cons c cs ih =>
    intro l hl hw
    rw [runCalls]
    apply ih _ _ (fun x hx => hw x (List.mem_cons_of_mem _ hx))
    rcases Call_run_snd c l with h | h
    · rw [h]; exact hl
    · rw [h]
      exact Inv_put l _ _ _ hl (Call_entity_written c (hw c (List.mem_cons_self _ _)))

theorem WrittenFor_decode (k v : Bytes) (hk : utf8.Valid k = true) (hv : WrittenFor k v) :
    ∃ r, json.Unmarshal v Rating.zero = some r ∧ r.LedgerId = k := by
  obtain ⟨r, rfl, hid, hrate⟩ := hv
  refine ⟨_, Unmarshal_Marshal r Rating.zero hrate, ?_⟩
  simp only [hid, json.toValidUTF8_valid _ hk]

theorem historyLoop_ledgerId (k : Bytes) (hk : utf8.Valid k = true) :
    ∀ (feed : List (Except String KeyModification)) (acc results : List HistoryQueryResult),
      historyLoop k feed acc = .ok results →
      (∀ x ∈ acc, x.Record.LedgerId = k) →
      (∀ km, Except.ok km ∈ feed → WrittenFor k km.Value) →
      ∀ x ∈ results, x.Record.LedgerId = k := by
  intro feed
  induction feed with
  | nil =>
    intro acc results h hacc _
    simp only [historyLoop, Except.ok.injEq] at h
    subst h
    exact hacc
  | cons e more ih =>
    intro acc results h hacc hfeed
    cases e with
    | error msg => simp [historyLoop] at h
    | ok km =>
      rw [historyLoop] at h
      obtain ⟨r, hr, hid⟩ := WrittenFor_decode k km.Value hk (hfeed km (List.mem_cons_self _ _))
      have hmore := fun x hx => hfeed x (List.mem_cons_of_mem _ hx)
      by_cases hlen : km.Value.length > 0
      · simp only [hlen, if_true, hr] at h
        cases hts : ptypesTimestamp km.Timestamp with
        | error err => rw [hts] at h; simp at h
        | ok t =>
          rw [hts] at h
          refine ih _ _ h ?_ hmore
          intro x hx
          rcases List.mem_append.mp hx with hx | hx
          · exact hacc x hx
          · rw [List.mem_singleton] at hx
            subst hx
            exact hid
      · simp only [hlen, if_false] at h
        cases hts : ptypesTimestamp km.Timestamp with
        | error err => rw [hts] at h; simp at h
        | ok t =>
          rw [hts] at h
          refine ih _ _ h ?_ hmore
          intro x hx
          rcases List.mem_append.mp hx with hx | hx
          · exact hacc x hx
          · rw [List.mem_singleton] at hx
            subst hx
            rfl

theorem mem_enumFrom_map (f : Nat × KeyModification → Except String KeyModification)
    (hf : ∀ p km, f p = .ok km → km = p.2) (km : KeyModification) :
    ∀ (kms : List KeyModification) (n : Nat),
      Except.ok km ∈ (kms.enumFrom n).map f → km ∈ kms := by
  intro kms
  induction kms with
  | nil => intro n h; simp at h
  | cons x xs ih =>
    intro n h
    simp only [List.enumFrom, List.map, List.mem_cons] at h
    rcases h with h | h
    · have := hf _ _ h.symm
      rw [this]
      exact List.mem_cons_self _ _
    · exact List.mem_cons_of_mem _ (ih _ h)

/-- C9, as stated, fails: after `RegisterRate(k, 5, "u2")` on the empty ledger with the
key `k` consisting of the single byte `0xFF`, the key is present and the stored entity
decodes to a `Rating` whose `LedgerId` is the encoding of U+FFFD, which is not `k`. -/
theorem C9_counterexample :
    (runCalls [Call.register (TransactionContext.healthy (str "tx1") ⟨1, 0⟩) [byte 0xFF] 5
        (str "u2")] Ledger.empty).state [byte 0xFF] ≠ none ∧
    (ReadLedger (TransactionContext.healthy (str "tx2") ⟨2, 0⟩) [byte 0xFF]
        (runCalls [Call.register (TransactionContext.healthy (str "tx1") ⟨1, 0⟩) [byte 0xFF] 5
          (str "u2")] Ledger.empty)).1
      = .ok { LedgerId := [byte 0xEF, byte 0xBF, byte 0xBD], Rate := 5, RatedBy := str "u2",
              OwnerId := [] } ∧
    [byte 0xEF, byte 0xBF, byte 0xBD] ≠ [byte 0xFF] := by
  decide

/-- C9, amended: in every state reachable from the empty ledger by any sequence of
`InitLedger` and `RegisterRate` calls (with rates of Go's `int`), for every present key `k`
that is valid UTF-8 the stored entity decodes to a `Rating` whose `LedgerId` equals `k`
(`ReadLedger(k)` returns it when the platform's get succeeds), and every entry that
`GetAllRatings(k)` returns has `Record.LedgerId = k`: the `LedgerId` of an entity does not
change across mutations. -/
theorem C9_ledger_id_fixed (calls : List Call) (ctx : TransactionContext) (k : Bytes)
    (htyped : ∀ c ∈ calls, c.wellTyped) (hk : utf8.Valid k = true) :
    (∀ v, (runCalls calls Ledger.empty).state k = some v →
      ∃ r, json.Unmarshal v Rating.zero = some r ∧ r.LedgerId = k ∧
        (ctx.getStateErr k = none →
          (ReadLedger ctx k (runCalls calls Ledger.empty)).1 = .ok r)) ∧
    (∀ results, (GetAllRatings ctx k (runCalls calls Ledger.empty)).1 = .ok results →
      ∀ x ∈ results, x.Record.LedgerId = k) := by
  have hinv := Inv_runCalls calls Ledger.empty Inv_empty htyped
  refine ⟨?_, ?_⟩
  · intro v hv
    obtain ⟨r, hr, hid⟩ := WrittenFor_decode k v hk ((hinv k).1 v hv)
    refine ⟨r, hr, hid, fun hget => ?_⟩
    rw [ReadLedger_eq _ _ _ hget, hv]
    simp only [hr]
  · intro results h
    unfold GetAllRatings GetHistoryForKey at h
    cases hopen : ctx.getHistoryErr k with
    | some msg => rw [hopen] at h; simp at h
    | none =>
      rw [hopen] at h
      simp only [List.enum] at h
      refine historyLoop_ledgerId k hk _ [] results h (by simp) ?_
      intro km hkm
      refine (hinv k).2 km (mem_enumFrom_map _ ?_ km _ 0 hkm)
      intro p km1 hp
      cases hn : ctx.nextErr k p.1 with
      | some msg => simp [hn] at hp
      | none => simpa [hn] using hp.symm

/-- Witness for C9: the state after `InitLedger("u1", "delivery")` and
`RegisterRate("u1:delivery", 5, "u2")`, at the key `"u1:delivery"`: `ReadLedger` returns an
entity with that `LedgerId`, and so do both entries of `GetAllRatings`. -/
theorem C9_ledger_id_fixed_witness :
    (∃ r,
      (ReadLedger (TransactionContext.healthy (str "tx3") ⟨3, 0⟩) (str "u1:delivery")
        (runCalls
          [Call.init (TransactionContext.healthy (str "tx1") ⟨1, 0⟩) (str "u1") (str "delivery"),
           Call.register (TransactionContext.healthy (str "tx2") ⟨2, 0⟩) (str "u1:delivery") 5
             (str "u2")]
          Ledger.empty)).1 = .ok r ∧ r.LedgerId = str "u1:delivery") ∧
    (∃ results,
      (GetAllRatings (TransactionContext.healthy (str "tx3") ⟨3, 0⟩) (str "u1:delivery")
        (runCalls
          [Call.init (TransactionContext.healthy (str "tx1") ⟨1, 0⟩) (str "u1") (str "delivery"),
           Call.register (TransactionContext.healthy (str "tx2") ⟨2, 0⟩) (str "u1:delivery") 5
             (str "u2")]
          Ledger.empty)).1 = .ok results ∧
      results.length = 2 ∧ ∀ x ∈ results, x.Record.LedgerId = str "u1:delivery") :=
  have h := C9_ledger_id_fixed
    [Call.init (TransactionContext.healthy (str "tx1") ⟨1, 0⟩) (str "u1") (str "delivery"),
     Call.register (TransactionContext.healthy (str "tx2") ⟨2, 0⟩) (str "u1:delivery") 5
       (str "u2")]
    (TransactionContext.healthy (str "tx3") ⟨3, 0⟩) (str "u1:delivery")
    (by
      intro c hc
      simp only [List.mem_cons, List.mem_singleton, List.not_mem_nil, or_false] at hc
      rcases hc with rfl | rfl
      · trivial
      · exact (by decide : isInt64 5))
    (by decide)
  have h1 := h.1 (json.Marshal (Call.register (TransactionContext.healthy (str "tx2") ⟨2, 0⟩)
    (str "u1:delivery") 5 (str "u2")).entity) (by decide)
  ⟨h1.elim (fun r hr => ⟨r, hr.2.2 rfl, hr.2.1⟩),
   ⟨[HistoryQueryResult.mk (Rating.mk (str "u1:delivery") 3 (str "init") (str "u1"))
       (str "tx1") ⟨1, 0⟩ false,
     HistoryQueryResult.mk (Rating.mk (str "u1:delivery") 5 (str "u2") [])
       (str "tx2") ⟨2, 0⟩ false],
    by decide, rfl, h.2 _ (by decide)⟩⟩

/-! ## C10 -/

/-- C10: `ReadLedger` is side-effect-free: for every ledger state and key it returns the
ledger it was given, so the current value and the history of every key are unchanged, and
a second `ReadLedger` of the same key with no write in between, the platform's get behaving
as in the first, returns the same result: the same entity or the same failure. -/
theorem C10_read_side_effect_free (ctx1 ctx2 : TransactionContext) (k : Bytes) (l : Ledger)
    (hsame : ctx2.getStateErr k = ctx1.getStateErr k) :
    (ReadLedger ctx1 k l).2 = l ∧
    (∀ k1, (ReadLedger ctx1 k l).2.state k1 = l.state k1 ∧
      (ReadLedger ctx1 k l).2.history k1 = l.history k1) ∧
    (ReadLedger ctx2 k (ReadLedger ctx1 k l).2).1 = (ReadLedger ctx1 k l).1 := by
  refine ⟨ReadLedger_snd ctx1 k l, fun k1 => by rw [ReadLedger_snd]; exact ⟨rfl, rfl⟩, ?_⟩
  rw [ReadLedger_snd]
  unfold ReadLedger GetState
  rw [hsame]

/-- Witness for C10: two reads of `"u1:delivery"` after `InitLedger("u1", "delivery")`. -/
theorem C10_read_side_effect_free_witness :
    (ReadLedger (TransactionContext.healthy (str "tx2") ⟨2, 0⟩) (str "u1:delivery")
        (InitLedger (TransactionContext.healthy (str "tx1") ⟨1, 0⟩) (str "u1") (str "delivery")
          Ledger.empty).2).2
      = (InitLedger (TransactionContext.healthy (str "tx1") ⟨1, 0⟩) (str "u1") (str "delivery")
          Ledger.empty).2 ∧
    (ReadLedger (TransactionContext.healthy (str "tx3") ⟨3, 0⟩) (str "u1:delivery")
        (ReadLedger (TransactionContext.healthy (str "tx2") ⟨2, 0⟩) (str "u1:delivery")
          (InitLedger (TransactionContext.healthy (str "tx1") ⟨1, 0⟩) (str "u1")
            (str "delivery") Ledger.empty).2).2).1
      = (ReadLedger (TransactionContext.healthy (str "tx2") ⟨2, 0⟩) (str "u1:delivery")
          (InitLedger (TransactionContext.healthy (str "tx1") ⟨1, 0⟩) (str "u1")
            (str "delivery") Ledger.empty).2).1 :=
  have h := C10_read_side_effect_free (TransactionContext.healthy (str "tx2") ⟨2, 0⟩)
    (TransactionContext.healthy (str "tx3") ⟨3, 0⟩) (str "u1:delivery")
    (InitLedger (TransactionContext.healthy (str "tx1") ⟨1, 0⟩) (str "u1") (str "delivery")
      Ledger.empty).2 rfl
  ⟨h.1, h.2.2⟩


/-! ## C11 -/

/-- C11: for every ledger state and key `k` with a working platform get, `ReadLedger(k)`
fails with the not-found error if and only if `k` is absent; it fails with a decode error
when `k` is present and its stored bytes do not parse as a `Rating`; otherwise it returns
the decoded entity. -/
theorem C11_read_outcomes (ctx : TransactionContext) (k : Bytes) (l : Ledger)
    (hget : ctx.getStateErr k = none) :
    ((ReadLedger ctx k l).1 = .error (Error.doesNotExist k) ↔ l.state k = none) ∧
    (∀ v, l.state k = some v → json.Unmarshal v Rating.zero = none →
      (ReadLedger ctx k l).1 = .error Error.decode) ∧
    (∀ v r, l.state k = some v → json.Unmarshal v Rating.zero = some r →
      (ReadLedger ctx k l).1 = .ok r) := by
  rw [ReadLedger_eq ctx k l hget]
  refine ⟨?_, ?_, ?_⟩
  · constructor
    · intro h
      cases hs : l.state k with
      | none => rfl
      | some v =>
        rw [hs] at h
        cases hu : json.Unmarshal v Rating.zero with
        | none => simp [hu] at h
        | some r => simp [hu] at h
    · intro h
      rw [h]
  · intro v hs hu
    simp only [hs, hu]
  · intro v r hs hu
    simp only [hs, hu]

/-- Witness for C11: `ReadLedger("k")` on the empty ledger is not-found; on a ledger where
`"k"` holds the bytes `oops` it is a decode error; and `ReadLedger("u1:delivery")` after
`InitLedger("u1", "delivery")` returns the decoded entity. -/
theorem C11_read_outcomes_witness :
    (ReadLedger (TransactionContext.healthy (str "tx2") ⟨2, 0⟩) (str "k") Ledger.empty).1
      = .error (Error.doesNotExist (str "k")) ∧
    (ReadLedger (TransactionContext.healthy (str "tx2") ⟨2, 0⟩) (str "k")
        (Ledger.empty.put (TransactionContext.healthy (str "tx1") ⟨1, 0⟩) (str "k")
          (str "oops"))).1 = .error Error.decode ∧
    (ReadLedger (TransactionContext.healthy (str "tx2") ⟨2, 0⟩) (str "u1:delivery")
        (InitLedger (TransactionContext.healthy (str "tx1") ⟨1, 0⟩) (str "u1")
          (str "delivery") Ledger.empty).2).1
      = .ok (Rating.mk (str "u1:delivery") 3 (str "init") (str "u1")) :=
  ⟨(C11_read_outcomes (TransactionContext.healthy (str "tx2") ⟨2, 0⟩) (str "k") Ledger.empty
      rfl).1.mpr rfl,
   (C11_read_outcomes (TransactionContext.healthy (str "tx2") ⟨2, 0⟩) (str "k")
      (Ledger.empty.put (TransactionContext.healthy (str "tx1") ⟨1, 0⟩) (str "k")
        (str "oops")) rfl).2.1 (str "oops") (by decide) (by decide),
   (C11_read_outcomes (TransactionContext.healthy (str "tx2") ⟨2, 0⟩) (str "u1:delivery")
      (InitLedger (TransactionContext.healthy (str "tx1") ⟨1, 0⟩) (str "u1")
        (str "delivery") Ledger.empty).2 rfl).2.2
      (json.Marshal (Rating.mk (str "u1:delivery") 3 (str "init") (str "u1")))
      (Rating.mk (str "u1:delivery") 3 (str "init") (str "u1")) (by decide) (by decide)⟩


/-! ## C12 -/

theorem historyLoop_ok_inv (k : Bytes) :
    ∀ (feed : List (Except String KeyModification)) (acc results : List HistoryQueryResult),
      historyLoop k feed acc = .ok results →
      ∀ e ∈ feed, ∃ km, e = .ok km ∧
        (km.Value ≠ [] → json.Unmarshal km.Value Rating.zero ≠ none) ∧
        ∃ t, ptypesTimestamp km.Timestamp = .ok t := by
  intro feed
  induction feed with
  | nil => intro acc results _ e he; simp at he
  | cons x more ih =>
    intro acc results h e he
    cases x with
    | error msg => simp [historyLoop] at h
    | ok km =>
      rw [historyLoop] at h
      by_cases hv : km.Value = []
      · simp only [hv, List.length_nil, gt_iff_lt, lt_self_iff_false, if_false] at h
        cases hts : ptypesTimestamp km.Timestamp with
        | error err => rw [hts] at h; simp at h
        | ok t =>
          rw [hts] at h
          rcases List.mem_cons.mp he with rfl | he
          · exact ⟨km, rfl, fun hne => absurd hv hne, t, hts⟩
          · exact ih _ _ h e he
      · have hlen : km.Value.length > 0 := List.length_pos.mpr hv
        simp only [hlen, if_true] at h
        cases hu : json.Unmarshal km.Value Rating.zero with
        | none => rw [hu] at h; simp at h
        | some r =>
          rw [hu] at h
          cases hts : ptypesTimestamp km.Timestamp with
          | error err => rw [hts] at h; simp at h
          | ok t =>
            rw [hts] at h
            rcases List.mem_cons.mp he with rfl | he
            · exact ⟨km, rfl, fun _ => by rw [hu]; simp, t, hts⟩
            · exact ih _ _ h e he

theorem mem_enumFrom_of_lt :
    ∀ (kms : List KeyModification) (n i : Nat), i < kms.length →
      ∃ km, km ∈ kms ∧ (n + i, km) ∈ kms.enumFrom n := by
  intro kms
  induction kms with
  | nil => intro n i h; simp at h
  | cons x xs ih =>
    intro n i h
    cases i with
    | zero => exact ⟨x, List.mem_cons_self _ _, by simp [List.enumFrom]⟩
    | succ j =>
      obtain ⟨km, hkm, hmem⟩ := ih (n + 1) j (by simpa using h)
      refine ⟨km, List.mem_cons_of_mem _ hkm, ?_⟩
      rw [List.enumFrom]
      have hidx : n + (j + 1) = n + 1 + j := by omega
      rw [hidx]
      exact List.mem_cons_of_mem _ hmem

theorem mem_enumFrom_of_mem :
    ∀ (kms : List KeyModification) (n : Nat) (km : KeyModification), km ∈ kms →
      ∃ i, (i, km) ∈ kms.enumFrom n := by
  intro kms
  induction kms with
  | nil => intro n km h; simp at h
  | cons x xs ih =>
    intro n km h
    rcases List.mem_cons.mp h with rfl | h
    · exact ⟨n, by simp [List.enumFrom]⟩
    · obtain ⟨i, hi⟩ := ih (n + 1) km h
      exact ⟨i, by rw [List.enumFrom]; exact List.mem_cons_of_mem _ hi⟩

theorem GetAllRatings_ok_feed (ctx : TransactionContext) (k : Bytes) (l : Ledger)
    (results : List HistoryQueryResult) (h : (GetAllRatings ctx k l).1 = .ok results) :
    ctx.getHistoryErr k = none ∧
    ∀ p ∈ (l.history k).enum, ctx.nextErr k p.1 = none ∧
      (p.2.Value ≠ [] → json.Unmarshal p.2.Value Rating.zero ≠ none) ∧
      ∃ t, ptypesTimestamp p.2.Timestamp = .ok t := by
  unfold GetAllRatings GetHistoryForKey at h
  cases hopen : ctx.getHistoryErr k with
  | some msg => rw [hopen] at h; simp at h
  | none =>
    rw [hopen] at h
    refine ⟨rfl, ?_⟩
    intro p hp
    have hinv := historyLoop_ok_inv k _ [] results h _ (List.mem_map_of_mem _ hp)
    obtain ⟨km, hkm, hdec, hts⟩ := hinv
    cases hn : ctx.nextErr k p.1 with
    | some msg => simp [hn] at hkm
    | none =>
      simp only [hn, Except.ok.injEq] at hkm
      subst hkm
      exact ⟨rfl, hdec, hts⟩

theorem Except_error_of_not_ok {α : Type} (x : Except Error α)
    (h : ∀ a, x ≠ .ok a) : ∃ e, x = .error e := by
  cases x with
  | error e => exact ⟨e, rfl⟩
  | ok a => exact absurd rfl (h a)

/-- C12: no platform error is swallowed.  When the platform's get fails, `LedgerExists`,
`ReadLedger` and `InitLedger` return an error, and `InitLedger` leaves the ledger as it
was (no put); when the put fails, `RegisterRate` and `InitLedger` return an error; when
opening the history fails, or a `Next` of the feed fails, or an entry does not decode,
`GetAllRatings` returns an error and no sequence; and `LedgerExists` returns an error only
when the platform's get failed. -/
theorem C12_errors_propagate (ctx : TransactionContext) (k ownerId serviceType : Bytes)
    (rate : Int) (raterId : Bytes) (l : Ledger) :
    (∀ msg, ctx.getStateErr k = some msg →
      (LedgerExists ctx k l).1 = .error (Error.readWorldState msg) ∧
      (ReadLedger ctx k l).1 = .error (Error.readWorldState msg)) ∧
    (∀ msg, ctx.getStateErr (ownerId ++ str ":" ++ serviceType) = some msg →
      InitLedger ctx ownerId serviceType l = (.error (Error.readWorldState msg), l)) ∧
    (∀ msg, ctx.getStateErr (ownerId ++ str ":" ++ serviceType) = none →
      l.state (ownerId ++ str ":" ++ serviceType) = none →
      ctx.putStateErr (ownerId ++ str ":" ++ serviceType) = some msg →
      InitLedger ctx ownerId serviceType l = (.error (Error.platform msg), l)) ∧
    (∀ msg, ctx.putStateErr k = some msg →
      RegisterRate ctx k rate raterId l = (.error (Error.platform msg), l)) ∧
    (∀ msg, ctx.getHistoryErr k = some msg →
      (GetAllRatings ctx k l).1 = .error (Error.platform msg)) ∧
    (∀ i msg, i < (l.history k).length → ctx.nextErr k i = some msg →
      ∃ e, (GetAllRatings ctx k l).1 = .error e) ∧
    (∀ km ∈ l.history k, km.Value ≠ [] → json.Unmarshal km.Value Rating.zero = none →
      ∃ e, (GetAllRatings ctx k l).1 = .error e) ∧
    (∀ e, (LedgerExists ctx k l).1 = .error e →
      ∃ msg, ctx.getStateErr k = some msg ∧ e = Error.readWorldState msg) := by
  refine ⟨?_, ?_, ?_, ?_, ?_, ?_, ?_, ?_⟩
  · intro msg h
    constructor
    · simp [LedgerExists, GetState, h]
    · simp [ReadLedger, GetState, h]
  · intro msg h
    rw [InitLedger_eq, h]
  · intro msg hg hs hp
    rw [InitLedger_eq, hg, hs, hp]
  · intro msg h
    rw [RegisterRate_eq, h]
  · intro msg h
    simp [GetAllRatings, GetHistoryForKey, h]
  · intro i msg hi hn
    apply Except_error_of_not_ok
    intro results hok
    obtain ⟨km, _, hmem⟩ := mem_enumFrom_of_lt (l.history k) 0 i hi
    have := ((GetAllRatings_ok_feed ctx k l results hok).2 (0 + i, km) hmem).1
    simp only [Nat.zero_add] at this
    rw [hn] at this
    simp at this
  · intro km hkm hv hu
    apply Except_error_of_not_ok
    intro results hok
    obtain ⟨i, hmem⟩ := mem_enumFrom_of_mem (l.history k) 0 km hkm
    exact ((GetAllRatings_ok_feed ctx k l results hok).2 (i, km) hmem).2.1 hv hu
  · intro e h
    unfold LedgerExists GetState at h
    cases hg : ctx.getStateErr k with
    | none => rw [hg] at h; simp at h
    | some msg =>
      rw [hg] at h
      simp only [Except.error.injEq] at h
      exact ⟨msg, rfl, h.symm⟩


/-- Witness for C12: a failing get makes `LedgerExists("k")`, `ReadLedger("k")` and
`InitLedger("u1", "delivery")` fail, the last without a write; a failing put makes
`RegisterRate` fail; a failing `Next` on the second of two history entries, and an entry
with the payload `oops`, make `GetAllRatings` fail. -/
theorem C12_errors_propagate_witness :
    ((LedgerExists { TransactionContext.healthy (str "tx1") ⟨1, 0⟩ with
          getStateErr := fun _ => some "get failed" } (str "k") Ledger.empty).1
        = .error (Error.readWorldState "get failed") ∧
      (ReadLedger { TransactionContext.healthy (str "tx1") ⟨1, 0⟩ with
          getStateErr := fun _ => some "get failed" } (str "k") Ledger.empty).1
        = .error (Error.readWorldState "get failed")) ∧
    (RegisterRate { TransactionContext.healthy (str "tx1") ⟨1, 0⟩ with
          putStateErr := fun _ => some "put failed" } (str "k") 5 (str "u2") Ledger.empty).1
        = .error (Error.platform "put failed") ∧
    (∃ e, (GetAllRatings { TransactionContext.healthy (str "tx3") ⟨3, 0⟩ with
          nextErr := fun _ i => if i = 1 then some "next failed" else none } (str "k")
        (runCalls
          [Call.register (TransactionContext.healthy (str "tx1") ⟨1, 0⟩) (str "k") 5 (str "u2"),
           Call.register (TransactionContext.healthy (str "tx2") ⟨2, 0⟩) (str "k") 4 (str "u3")]
          Ledger.empty)).1 = .error e) ∧
    (∃ e, (GetAllRatings (TransactionContext.healthy (str "tx3") ⟨3, 0⟩) (str "k")
        (Ledger.empty.put (TransactionContext.healthy (str "tx1") ⟨1, 0⟩) (str "k")
          (str "oops"))).1 = .error e) :=
  ⟨(C12_errors_propagate { TransactionContext.healthy (str "tx1") ⟨1, 0⟩ with
        getStateErr := fun _ => some "get failed" } (str "k") (str "u1") (str "delivery") 5
      (str "u2") Ledger.empty).1 "get failed" rfl,
   congrArg Prod.fst ((C12_errors_propagate { TransactionContext.healthy (str "tx1") ⟨1, 0⟩ with
        putStateErr := fun _ => some "put failed" } (str "k") (str "u1") (str "delivery") 5
      (str "u2") Ledger.empty).2.2.2.1 "put failed" rfl),
   (C12_errors_propagate { TransactionContext.healthy (str "tx3") ⟨3, 0⟩ with
        nextErr := fun _ i => if i = 1 then some "next failed" else none } (str "k")
      (str "u1") (str "delivery") 5 (str "u2")
      (runCalls
        [Call.register (TransactionContext.healthy (str "tx1") ⟨1, 0⟩) (str "k") 5 (str "u2"),
         Call.register (TransactionContext.healthy (str "tx2") ⟨2, 0⟩) (str "k") 4 (str "u3")]
        Ledger.empty)).2.2.2.2.2.1 1 "next failed" (by decide) rfl,
   (C12_errors_propagate (TransactionContext.healthy (str "tx3") ⟨3, 0⟩) (str "k")
      (str "u1") (str "delivery") 5 (str "u2")
      (Ledger.empty.put (TransactionContext.healthy (str "tx1") ⟨1, 0⟩) (str "k")
        (str "oops"))).2.2.2.2.2.2.1
      (KeyModification.mk (str "tx1") (str "oops") (some ⟨1, 0⟩) false) (by decide)
      (by decide) (by decide)⟩

/-! ## C13 -/

theorem Marshal_layout (r : Rating) :
    json.Marshal r
      = str "\x7b\"ledgerId\":" ++ json.encodeString r.LedgerId
        ++ str ",\"rate\":" ++ formatInt r.Rate
        ++ str ",\"ratedBy\":" ++ json.encodeString r.RatedBy
        ++ str ",\"ownerId\":" ++ json.encodeString r.OwnerId ++ str "\x7d" := by
  have h1 : str "\x7b\"ledgerId\":" = byte 0x7B :: str "\"ledgerId\":" := by decide
  have h2 : str "\x7d" = [byte 0x7D] := by decide
  rw [h1, h2]
  simp [json.Marshal]

theorem Unmarshal_Marshal_valid (r : Rating) (hrate : isInt64 r.Rate)
    (h1 : utf8.Valid r.LedgerId = true) (h2 : utf8.Valid r.RatedBy = true)
    (h3 : utf8.Valid r.OwnerId = true) :
    json.Unmarshal (json.Marshal r) Rating.zero = some r := by
  rw [Unmarshal_Marshal r Rating.zero hrate, json.toValidUTF8_valid _ h1,
    json.toValidUTF8_valid _ h2, json.toValidUTF8_valid _ h3]

/-- C13, as stated, fails: `RegisterRate("k", 5, raterId)` with the rater id `0xFF`
persists the encoding of the entity `{k, 5, raterId, ""}`, and decoding that encoding
yields an entity with `RatedBy` equal to the encoding of U+FFFD: decode does not undo
encode for this `Rating`. -/
theorem C13_counterexample :
    (RegisterRate (TransactionContext.healthy (str "tx1") ⟨1, 0⟩) (str "k") 5 [byte 0xFF]
        Ledger.empty).2.state (str "k")
      = some (json.Marshal (Rating.mk (str "k") 5 [byte 0xFF] [])) ∧
    json.Unmarshal (json.Marshal (Rating.mk (str "k") 5 [byte 0xFF] [])) Rating.zero
      = some (Rating.mk (str "k") 5 [byte 0xEF, byte 0xBF, byte 0xBD] []) ∧
    json.Unmarshal (json.Marshal (Rating.mk (str "k") 5 [byte 0xFF] [])) Rating.zero
      ≠ some (Rating.mk (str "k") 5 [byte 0xFF] []) := by
  decide

/-- C13, amended: the value persisted by a successful `InitLedger` and by a successful
`RegisterRate` is the JSON encoding of the entity they construct: the object with exactly
the four members `ledgerId` (string), `rate` (integer), `ratedBy` (string) and `ownerId`
(string), in this order, holding the entity's `LedgerId`, `Rate`, `RatedBy` and `OwnerId`.
Decoding the encoding of a `Rating` whose rate is a Go `int` yields the entity with every
byte of its strings that is not valid UTF-8 replaced by U+FFFD; it yields the same entity
back when the strings are valid UTF-8. -/
theorem C13_wire_format (ctx : TransactionContext) (ownerId serviceType ledgerId : Bytes)
    (rate : Int) (raterId : Bytes) (l : Ledger) :
    ((InitLedger ctx ownerId serviceType l).1 = .ok () →
      (InitLedger ctx ownerId serviceType l).2.state (ownerId ++ str ":" ++ serviceType)
        = some (json.Marshal { LedgerId := ownerId ++ str ":" ++ serviceType, Rate := 3,
                               RatedBy := str "init", OwnerId := ownerId })) ∧
    ((RegisterRate ctx ledgerId rate raterId l).1 = .ok () →
      (RegisterRate ctx ledgerId rate raterId l).2.state ledgerId
        = some (json.Marshal { LedgerId := ledgerId, Rate := rate, RatedBy := raterId,
                               OwnerId := [] })) ∧
    (∀ r : Rating,
      json.Marshal r
        = str "\x7b\"ledgerId\":" ++ json.encodeString r.LedgerId
          ++ str ",\"rate\":" ++ formatInt r.Rate
          ++ str ",\"ratedBy\":" ++ json.encodeString r.RatedBy
          ++ str ",\"ownerId\":" ++ json.encodeString r.OwnerId ++ str "\x7d") ∧
    (∀ (s rest : Bytes),
      json.readString (json.encodeString s ++ rest) = some (toValidUTF8 s, rest)) ∧
    (∀ i : Int, isInt64 i → parseInt64 (formatInt i) = some i) ∧
    (∀ r : Rating, isInt64 r.Rate →
      json.Unmarshal (json.Marshal r) Rating.zero
        = some { LedgerId := toValidUTF8 r.LedgerId, Rate := r.Rate,
                 RatedBy := toValidUTF8 r.RatedBy, OwnerId := toValidUTF8 r.OwnerId }) ∧
    (∀ r : Rating, isInt64 r.Rate → utf8.Valid r.LedgerId = true →
      utf8.Valid r.RatedBy = true → utf8.Valid r.OwnerId = true →
      json.Unmarshal (json.Marshal r) Rating.zero = some r) := by
  refine ⟨?_, ?_, Marshal_layout, json.readString_encodeString, parseInt64_formatInt,
    fun r hr => Unmarshal_Marshal r Rating.zero hr, Unmarshal_Marshal_valid⟩
  · intro h
    rw [(InitLedger_ok ctx ownerId serviceType l h).2, put_state_self]
  · intro h
    rw [RegisterRate_ok ctx ledgerId rate raterId l h, put_state_self]

/-- Witness for C13: the value `InitLedger("u1", "delivery")` persists on the empty ledger
is the JSON text of the default entity, and it decodes to that entity. -/
theorem C13_wire_format_witness :
    (InitLedger (TransactionContext.healthy (str "tx1") ⟨1, 0⟩) (str "u1") (str "delivery")
        Ledger.empty).2.state (str "u1" ++ str ":" ++ str "delivery")
      = some (json.Marshal (Rating.mk (str "u1" ++ str ":" ++ str "delivery") 3 (str "init")
          (str "u1"))) ∧
    json.Marshal (Rating.mk (str "u1:delivery") 3 (str "init") (str "u1"))
      = str "\x7b\"ledgerId\":\"u1:delivery\",\"rate\":3,\"ratedBy\":\"init\",\"ownerId\":\"u1\"\x7d" ∧
    json.Unmarshal (json.Marshal (Rating.mk (str "u1:delivery") 3 (str "init") (str "u1")))
        Rating.zero
      = some (Rating.mk (str "u1:delivery") 3 (str "init") (str "u1")) :=
  ⟨(C13_wire_format (TransactionContext.healthy (str "tx1") ⟨1, 0⟩) (str "u1") (str "delivery")
      (str "k") 5 (str "u2") Ledger.empty).1 (by decide),
   by decide,
   (C13_wire_format (TransactionContext.healthy (str "tx1") ⟨1, 0⟩) (str "u1") (str "delivery")
      (str "k") 5 (str "u2") Ledger.empty).2.2.2.2.2.2
      (Rating.mk (str "u1:delivery") 3 (str "init") (str "u1")) (by decide) (by decide)
      (by decide) (by decide)⟩

/-! ## C14 -/

/-- C14: when `InitLedger(ownerId, serviceType)` fails because the key
`ownerId + ":" + serviceType` already exists (which it does, with a working get, whenever
the key has a value), the ledger is left exactly as it was: the current value of every key
and every key's history are unchanged, so every read returns what it returned before (the
existing entity keeps its `Rate`, `RatedBy` and `OwnerId`). -/
theorem C14_failed_init_unchanged (ctx : TransactionContext) (ownerId serviceType : Bytes)
    (l : Ledger) :
    (∀ v, l.state (ownerId ++ str ":" ++ serviceType) = some v →
      ctx.getStateErr (ownerId ++ str ":" ++ serviceType) = none →
      (InitLedger ctx ownerId serviceType l).1
        = .error (Error.alreadyExists (ownerId ++ str ":" ++ serviceType))) ∧
    ((InitLedger ctx ownerId serviceType l).1
        = .error (Error.alreadyExists (ownerId ++ str ":" ++ serviceType)) →
      (InitLedger ctx ownerId serviceType l).2 = l ∧
      (∀ k, (InitLedger ctx ownerId serviceType l).2.state k = l.state k ∧
        (InitLedger ctx ownerId serviceType l).2.history k = l.history k) ∧
      (∀ ctxr k,
        (ReadLedger ctxr k (InitLedger ctx ownerId serviceType l).2).1
          = (ReadLedger ctxr k l).1 ∧
        (GetAllRatings ctxr k (InitLedger ctx ownerId serviceType l).2).1
          = (GetAllRatings ctxr k l).1)) := by
  refine ⟨?_, ?_⟩
  · intro v hs hg
    rw [InitLedger_eq, hg, hs]
  · intro hfail
    have h : (InitLedger ctx ownerId serviceType l).2 = l := by
      rcases InitLedger_snd ctx ownerId serviceType l with h | h
      · exact h
      · rw [h] at hfail
        simp at hfail
    rw [h]
    exact ⟨rfl, fun _ => ⟨rfl, rfl⟩, fun _ _ => ⟨rfl, rfl⟩⟩

/-- Witness for C14: the second `InitLedger("u1", "delivery")` fails with the
already-exists error and leaves the ledger of the first as it was. -/
theorem C14_failed_init_unchanged_witness :
    (InitLedger (TransactionContext.healthy (str "tx2") ⟨2, 0⟩) (str "u1") (str "delivery")
        (InitLedger (TransactionContext.healthy (str "tx1") ⟨1, 0⟩) (str "u1")
          (str "delivery") Ledger.empty).2).1
      = .error (Error.alreadyExists (str "u1" ++ str ":" ++ str "delivery")) ∧
    (InitLedger (TransactionContext.healthy (str "tx2") ⟨2, 0⟩) (str "u1") (str "delivery")
        (InitLedger (TransactionContext.healthy (str "tx1") ⟨1, 0⟩) (str "u1")
          (str "delivery") Ledger.empty).2).2
      = (InitLedger (TransactionContext.healthy (str "tx1") ⟨1, 0⟩) (str "u1")
          (str "delivery") Ledger.empty).2 :=
  have h := C14_failed_init_unchanged (TransactionContext.healthy (str "tx2") ⟨2, 0⟩)
    (str "u1") (str "delivery")
    (InitLedger (TransactionContext.healthy (str "tx1") ⟨1, 0⟩) (str "u1")
      (str "delivery") Ledger.empty).2
  have h1 := h.1 (json.Marshal (Rating.mk (str "u1:delivery") 3 (str "init") (str "u1")))
    (by decide) rfl
  ⟨h1, (h.2 h1).1⟩


/-! ## C15 -/

theorem LedgerExists_congr (ctx : TransactionContext) (k : Bytes) (l1 l2 : Ledger)
    (h : l1.state k = l2.state k) : (LedgerExists ctx k l1).1 = (LedgerExists ctx k l2).1 := by
  unfold LedgerExists GetState
  rw [h]
  cases ctx.getStateErr k <;> rfl

theorem ReadLedger_congr (ctx : TransactionContext) (k : Bytes) (l1 l2 : Ledger)
    (h : l1.state k = l2.state k) : (ReadLedger ctx k l1).1 = (ReadLedger ctx k l2).1 := by
  unfold ReadLedger GetState
  rw [h]
  cases ctx.getStateErr k with
  | some msg => rfl
  | none =>
    cases l2.state k with
    | none => rfl
    | some v =>
      dsimp only
      cases json.Unmarshal v Rating.zero <;> rfl

theorem GetAllRatings_congr (ctx : TransactionContext) (k : Bytes) (l1 l2 : Ledger)
    (h : l1.history k = l2.history k) :
    (GetAllRatings ctx k l1).1 = (GetAllRatings ctx k l2).1 := by
  unfold GetAllRatings GetHistoryForKey
  rw [h]
  cases ctx.getHistoryErr k <;> rfl

theorem put_frame (l : Ledger) (ctx ctxr : TransactionContext) (key v k1 : Bytes)
    (hne : k1 ≠ key) :
    (LedgerExists ctxr k1 (l.put ctx key v)).1 = (LedgerExists ctxr k1 l).1 ∧
    (ReadLedger ctxr k1 (l.put ctx key v)).1 = (ReadLedger ctxr k1 l).1 ∧
    (GetAllRatings ctxr k1 (l.put ctx key v)).1 = (GetAllRatings ctxr k1 l).1 :=
  ⟨LedgerExists_congr _ _ _ _ (put_state_other _ _ _ _ _ hne),
   ReadLedger_congr _ _ _ _ (put_state_other _ _ _ _ _ hne),
   GetAllRatings_congr _ _ _ _ (put_history_other _ _ _ _ _ hne)⟩

/-- C15: writes touch only the addressed key.  For every ledger state, a successful
`InitLedger(ownerId, serviceType)` or `RegisterRate(ledgerId, rate, raterId)` sets the
current value of the key it targets to the encoding of the entity it constructs and
appends exactly one entry, carrying that value, to the key's history; and for every
other key `k1` the results of `LedgerExists(k1)`, `ReadLedger(k1)` and
`GetAllRatings(k1)` are the same before and after. -/
theorem C15_write_frame (ctx ctxr : TransactionContext) (ownerId serviceType ledgerId : Bytes)
    (rate : Int) (raterId : Bytes) (l : Ledger) :
    ((InitLedger ctx ownerId serviceType l).1 = .ok () →
      (InitLedger ctx ownerId serviceType l).2.state (ownerId ++ str ":" ++ serviceType)
        = some (json.Marshal { LedgerId := ownerId ++ str ":" ++ serviceType, Rate := 3,
                               RatedBy := str "init", OwnerId := ownerId }) ∧
      (InitLedger ctx ownerId serviceType l).2.history (ownerId ++ str ":" ++ serviceType)
        = l.history (ownerId ++ str ":" ++ serviceType)
          ++ [{ TxId := ctx.txId,
                Value := json.Marshal { LedgerId := ownerId ++ str ":" ++ serviceType,
                                        Rate := 3, RatedBy := str "init", OwnerId := ownerId },
                Timestamp := ctx.timestamp, IsDelete := false }] ∧
      ∀ k1, k1 ≠ ownerId ++ str ":" ++ serviceType →
        (LedgerExists ctxr k1 (InitLedger ctx ownerId serviceType l).2).1
          = (LedgerExists ctxr k1 l).1 ∧
        (ReadLedger ctxr k1 (InitLedger ctx ownerId serviceType l).2).1
          = (ReadLedger ctxr k1 l).1 ∧
        (GetAllRatings ctxr k1 (InitLedger ctx ownerId serviceType l).2).1
          = (GetAllRatings ctxr k1 l).1) ∧
    ((RegisterRate ctx ledgerId rate raterId l).1 = .ok () →
      (RegisterRate ctx ledgerId rate raterId l).2.state ledgerId
        = some (json.Marshal { LedgerId := ledgerId, Rate := rate, RatedBy := raterId,
                               OwnerId := [] }) ∧
      (RegisterRate ctx ledgerId rate raterId l).2.history ledgerId
        = l.history ledgerId
          ++ [{ TxId := ctx.txId,
                Value := json.Marshal { LedgerId := ledgerId, Rate := rate, RatedBy := raterId,
                                        OwnerId := [] },
                Timestamp := ctx.timestamp, IsDelete := false }] ∧
      ∀ k1, k1 ≠ ledgerId →
        (LedgerExists ctxr k1 (RegisterRate ctx ledgerId rate raterId l).2).1
          = (LedgerExists ctxr k1 l).1 ∧
        (ReadLedger ctxr k1 (RegisterRate ctx ledgerId rate raterId l).2).1
          = (ReadLedger ctxr k1 l).1 ∧
        (GetAllRatings ctxr k1 (RegisterRate ctx ledgerId rate raterId l).2).1
          = (GetAllRatings ctxr k1 l).1) := by
  refine ⟨?_, ?_⟩
  · intro h
    rw [(InitLedger_ok ctx ownerId serviceType l h).2]
    exact ⟨put_state_self _ _ _ _, put_history_self _ _ _ _,
      fun k1 hne => put_frame l ctx ctxr _ _ k1 hne⟩
  · intro h
    rw [RegisterRate_ok ctx ledgerId rate raterId l h]
    exact ⟨put_state_self _ _ _ _, put_history_self _ _ _ _,
      fun k1 hne => put_frame l ctx ctxr _ _ k1 hne⟩

/-- Witness for C15: after `InitLedger("u1", "delivery")`, the call
`RegisterRate("u2:taxi", 4, "u9")` leaves `ReadLedger("u1:delivery")` and
`GetAllRatings("u1:delivery")` as they were, and the history of `"u2:taxi"` has one entry. -/
theorem C15_write_frame_witness :
    ((RegisterRate (TransactionContext.healthy (str "tx2") ⟨2, 0⟩) (str "u2:taxi") 4 (str "u9")
        (InitLedger (TransactionContext.healthy (str "tx1") ⟨1, 0⟩) (str "u1")
          (str "delivery") Ledger.empty).2).2.history (str "u2:taxi")).length = 1 ∧
    (ReadLedger (TransactionContext.healthy (str "tx3") ⟨3, 0⟩) (str "u1:delivery")
        (RegisterRate (TransactionContext.healthy (str "tx2") ⟨2, 0⟩) (str "u2:taxi") 4
          (str "u9")
          (InitLedger (TransactionContext.healthy (str "tx1") ⟨1, 0⟩) (str "u1")
            (str "delivery") Ledger.empty).2).2).1
      = (ReadLedger (TransactionContext.healthy (str "tx3") ⟨3, 0⟩) (str "u1:delivery")
          (InitLedger (TransactionContext.healthy (str "tx1") ⟨1, 0⟩) (str "u1")
            (str "delivery") Ledger.empty).2).1 ∧
    (GetAllRatings (TransactionContext.healthy (str "tx3") ⟨3, 0⟩) (str "u1:delivery")
        (RegisterRate (TransactionContext.healthy (str "tx2") ⟨2, 0⟩) (str "u2:taxi") 4
          (str "u9")
          (InitLedger (TransactionContext.healthy (str "tx1") ⟨1, 0⟩) (str "u1")
            (str "delivery") Ledger.empty).2).2).1
      = (GetAllRatings (TransactionContext.healthy (str "tx3") ⟨3, 0⟩) (str "u1:delivery")
          (InitLedger (TransactionContext.healthy (str "tx1") ⟨1, 0⟩) (str "u1")
            (str "delivery") Ledger.empty).2).1 :=
  have h := (C15_write_frame (TransactionContext.healthy (str "tx2") ⟨2, 0⟩)
    (TransactionContext.healthy (str "tx3") ⟨3, 0⟩) (str "u1") (str "delivery")
    (str "u2:taxi") 4 (str "u9")
    (InitLedger (TransactionContext.healthy (str "tx1") ⟨1, 0⟩) (str "u1")
      (str "delivery") Ledger.empty).2).2 (by decide)
  ⟨by rw [h.2.1]; decide, (h.2.2 (str "u1:delivery") (by decide)).2.1,
    (h.2.2 (str "u1:delivery") (by decide)).2.2⟩


/-! ## C16 -/

theorem Agree_empty : Ledger.empty.Agree := by
  intro k
  simp [Ledger.empty]

theorem Agree_put (l : Ledger) (ctx : TransactionContext) (key v : Bytes) (hl : l.Agree) :
    (l.put ctx key v).Agree := by
  intro k
  by_cases hk : k = key
  · subst hk
    rw [put_state_self, put_history_self]
    simp
  · rw [put_state_other _ _ _ _ _ hk, put_history_other _ _ _ _ _ hk]
    exact hl k

theorem Agree_runCalls :
    ∀ (calls : List Call) (l : Ledger), l.Agree → (runCalls calls l).Agree := by
  intro calls
  induction calls with
  | nil => intro l hl; exact hl
  | cons c cs ih =>
    intro l hl
    rw [runCalls]
    apply ih
    rcases Call_run_snd c l with h | h
    · rw [h]; exact hl
    · rw [h]; exact Agree_put l _ _ _ hl

theorem runCalls_history_mem (k : Bytes) (km : KeyModification) :
    ∀ (calls : List Call) (l : Ledger), km ∈ (runCalls calls l).history k →
      km ∈ l.history k ∨ ∃ c ∈ calls, km = c.modification := by
  intro calls
  induction calls with
  | nil => intro l h; exact Or.inl h
  | cons c cs ih =>
    intro l h
    rw [runCalls] at h
    rcases ih _ h with h1 | ⟨c1, hc1, hkm⟩
    · rcases Call_run_snd c l with hs | hs
      · rw [hs] at h1; exact Or.inl h1
      · rw [hs] at h1
        by_cases hk : k = c.key
        · subst hk
          rw [put_history_self] at h1
          rcases List.mem_append.mp h1 with h2 | h2
          · exact Or.inl h2
          · rw [List.mem_singleton] at h2
            exact Or.inr ⟨c, List.mem_cons_self _ _, h2⟩
        · rw [put_history_other _ _ _ _ _ hk] at h1
          exact Or.inl h1
    · exact Or.inr ⟨c1, List.mem_cons_of_mem _ hc1, hkm⟩

theorem forall₂_getLast {α β : Type} (R : α → β → Prop) :
    ∀ (xs : List α) (ys : List β), List.Forall₂ R xs ys → ∀ x, xs.getLast? = some x →
      ∃ y, ys.getLast? = some y ∧ R x y := by
  intro xs ys h
  induction h with
  | nil => intro x hx; simp at hx
  | cons hr hrest ih =>
    rename_i a b as bs
    intro x hx
    cases hrest with
    | nil =>
      simp only [List.getLast?_singleton, Option.some.injEq] at hx
      subst hx
      exact ⟨b, by simp, hr⟩
    | cons hr2 hrest2 =>
      rename_i a2 b2 as2 bs2
      rw [List.getLast?_cons_cons] at hx
      obtain ⟨y, hy, hxy⟩ := ih x hx
      exact ⟨y, by rw [List.getLast?_cons_cons]; exact hy, hxy⟩

/-- C16, as stated, fails: after `RegisterRate("k", 5, "u2")` on the empty ledger in a
transaction to which the platform gave no commit timestamp, the key `"k"` is present
(`LedgerExists` is true) and `ReadLedger("k")` returns the entity, while
`GetAllRatings("k")` returns the timestamp error and no entry at all. -/
theorem C16_counterexample :
    (LedgerExists (TransactionContext.healthy (str "tx2") ⟨2, 0⟩) (str "k")
        (runCalls
          [Call.register { TransactionContext.healthy (str "tx1") ⟨1, 0⟩ with timestamp := none }
            (str "k") 5 (str "u2")]
          Ledger.empty)).1 = .ok true ∧
    (ReadLedger (TransactionContext.healthy (str "tx2") ⟨2, 0⟩) (str "k")
        (runCalls
          [Call.register { TransactionContext.healthy (str "tx1") ⟨1, 0⟩ with timestamp := none }
            (str "k") 5 (str "u2")]
          Ledger.empty)).1 = .ok (Rating.mk (str "k") 5 (str "u2") []) ∧
    (GetAllRatings (TransactionContext.healthy (str "tx2") ⟨2, 0⟩) (str "k")
        (runCalls
          [Call.register { TransactionContext.healthy (str "tx1") ⟨1, 0⟩ with timestamp := none }
            (str "k") 5 (str "u2")]
          Ledger.empty)).1 = .error Error.timestamp := by
  decide

/-- C16, amended: current value and history agree.  In every state reachable from the empty
ledger by `InitLedger` and `RegisterRate` calls (rates of Go's `int`, history oldest first,
no external deletion), for every key `k` whose history entries all carry a commit
timestamp that converts, with the platform's get and history calls working:
`GetAllRatings(k)` returns a sequence; if `k` is present, `ReadLedger(k)` returns an entity
and it equals the `Record` of the last entry of that sequence; and the sequence is
non-empty exactly when `LedgerExists(k)` is true. -/
theorem C16_value_and_history_agree (calls : List Call) (ctx : TransactionContext) (k : Bytes)
    (htyped : ∀ c ∈ calls, c.wellTyped)
    (htime : ∀ km ∈ (runCalls calls Ledger.empty).history k,
      ∃ t, ptypesTimestamp km.Timestamp = .ok t)
    (hget : ctx.getStateErr k = none) (hopen : ctx.getHistoryErr k = none)
    (hnext : ∀ i, ctx.nextErr k i = none) :
    ∃ results, (GetAllRatings ctx k (runCalls calls Ledger.empty)).1 = .ok results ∧
      ((runCalls calls Ledger.empty).state k ≠ none →
        ∃ r x, (ReadLedger ctx k (runCalls calls Ledger.empty)).1 = .ok r ∧
          results.getLast? = some x ∧ x.Record = r) ∧
      (results ≠ [] ↔ (LedgerExists ctx k (runCalls calls Ledger.empty)).1 = .ok true) := by
  have hagree := Agree_runCalls calls Ledger.empty Agree_empty k
  have hmem : ∀ km ∈ (runCalls calls Ledger.empty).history k, ∃ c ∈ calls,
      km = c.modification := by
    intro km hkm
    rcases runCalls_history_mem k km calls Ledger.empty hkm with h | h
    · simp [Ledger.empty] at h
    · exact h
  have hval : ∀ km ∈ (runCalls calls Ledger.empty).history k,
      km.Value ≠ [] ∧ json.Unmarshal km.Value Rating.zero ≠ none := by
    intro km hkm
    obtain ⟨c, hc, rfl⟩ := hmem km hkm
    have hint : isInt64 c.entity.Rate := by
      cases c with
      | init ctx o s => exact (by decide : isInt64 3)
      | register ctx k1 rate u => exact htyped _ hc
    refine ⟨Marshal_ne_nil _, ?_⟩
    simp only [Call.modification]
    rw [Unmarshal_Marshal _ _ hint]
    simp
  obtain ⟨rs, hrs, hall⟩ := historyLoop_ok k ((runCalls calls Ledger.empty).history k) []
    (fun km hkm _ => (hval km hkm).2) htime
  refine ⟨rs, ?_, ?_, ?_⟩
  · rw [GetAllRatings_eq ctx k _ hopen hnext, hrs]
    rfl
  · intro hpresent
    cases hlast : ((runCalls calls Ledger.empty).history k).getLast? with
    | none =>
      rw [hlast] at hagree
      exact absurd hagree hpresent
    | some km =>
      rw [hlast] at hagree
      simp only [Option.map_some'] at hagree
      obtain ⟨x, hx, hsnap⟩ := forall₂_getLast _ _ _ hall km hlast
      have hkm := List.mem_of_getLast?_eq_some hlast
      have hu := hsnap.2.2.2.1 (hval km hkm).1
      refine ⟨x.Record, x, ?_, hx, rfl⟩
      rw [ReadLedger_eq _ _ _ hget, hagree]
      simp only [hu]
  · rw [LedgerExists_eq _ _ _ hget, hagree]
    have hlen := hall.length_eq
    constructor
    · intro hne
      cases hh : (runCalls calls Ledger.empty).history k with
      | nil =>
        rw [hh] at hlen
        exact absurd (List.length_eq_zero.mp hlen.symm) hne
      | cons a as =>
        obtain ⟨y, hy⟩ : ∃ y, (a :: as).getLast? = some y :=
          ⟨(a :: as).getLast (by simp), List.getLast?_eq_getLast _ (by simp)⟩
        rw [hy]
        rfl
    · intro hex hnil
      rw [hnil] at hlen
      have hh : (runCalls calls Ledger.empty).history k = [] := List.length_eq_zero.mp hlen
      rw [hh] at hex
      simp at hex

/-- Witness for C16: the state after `InitLedger("u1", "delivery")`,
`RegisterRate("u1:delivery", 5, "u2")` and a `RegisterRate("other", 1, "u3")` whose
transaction has no commit timestamp, at the key `"u1:delivery"`, whose two history entries
have timestamps that convert. -/
theorem C16_value_and_history_agree_witness :
    ∃ results,
      (GetAllRatings (TransactionContext.healthy (str "tx4") ⟨4, 0⟩) (str "u1:delivery")
        (runCalls
          [Call.init (TransactionContext.healthy (str "tx1") ⟨1, 0⟩) (str "u1") (str "delivery"),
           Call.register (TransactionContext.healthy (str "tx2") ⟨2, 0⟩) (str "u1:delivery") 5
             (str "u2"),
           Call.register { TransactionContext.healthy (str "tx3") ⟨3, 0⟩ with timestamp := none }
             (str "other") 1 (str "u3")]
          Ledger.empty)).1 = .ok results ∧
      (∃ r x,
        (ReadLedger (TransactionContext.healthy (str "tx4") ⟨4, 0⟩) (str "u1:delivery")
          (runCalls
            [Call.init (TransactionContext.healthy (str "tx1") ⟨1, 0⟩) (str "u1")
               (str "delivery"),
             Call.register (TransactionContext.healthy (str "tx2") ⟨2, 0⟩) (str "u1:delivery") 5
               (str "u2"),
             Call.register
               { TransactionContext.healthy (str "tx3") ⟨3, 0⟩ with timestamp := none }
               (str "other") 1 (str "u3")]
            Ledger.empty)).1 = .ok r ∧
        results.getLast? = some x ∧ x.Record = r) ∧
      results ≠ [] :=
  have h := C16_value_and_history_agree
    [Call.init (TransactionContext.healthy (str "tx1") ⟨1, 0⟩) (str "u1") (str "delivery"),
     Call.register (TransactionContext.healthy (str "tx2") ⟨2, 0⟩) (str "u1:delivery") 5
       (str "u2"),
     Call.register { TransactionContext.healthy (str "tx3") ⟨3, 0⟩ with timestamp := none }
       (str "other") 1 (str "u3")]
    (TransactionContext.healthy (str "tx4") ⟨4, 0⟩) (str "u1:delivery")
    (by
      intro c hc
      simp only [List.mem_cons, List.mem_singleton, List.not_mem_nil, or_false] at hc
      rcases hc with rfl | rfl | rfl
      · trivial
      · exact (by decide : isInt64 5)
      · exact (by decide : isInt64 1))
    (by
      have hh : (runCalls
          [Call.init (TransactionContext.healthy (str "tx1") ⟨1, 0⟩) (str "u1") (str "delivery"),
           Call.register (TransactionContext.healthy (str "tx2") ⟨2, 0⟩) (str "u1:delivery") 5
             (str "u2"),
           Call.register { TransactionContext.healthy (str "tx3") ⟨3, 0⟩ with timestamp := none }
             (str "other") 1 (str "u3")]
          Ledger.empty).history (str "u1:delivery")
          = [KeyModification.mk (str "tx1")
               (json.Marshal (Rating.mk (str "u1:delivery") 3 (str "init") (str "u1")))
               (some ⟨1, 0⟩) false,
             KeyModification.mk (str "tx2")
               (json.Marshal (Rating.mk (str "u1:delivery") 5 (str "u2") []))
               (some ⟨2, 0⟩) false] := by
        decide
      rw [hh]
      intro km hkm
      simp only [List.mem_cons, List.mem_singleton, List.not_mem_nil, or_false] at hkm
      rcases hkm with rfl | rfl
      · exact ⟨⟨1, 0⟩, by decide⟩
      · exact ⟨⟨2, 0⟩, by decide⟩)
    rfl rfl (fun _ => rfl)
  h.elim (fun results hr => ⟨results, hr.1, hr.2.1 (by decide), hr.2.2.mpr (by decide)⟩)

end Chaincode
